import Mathlib

/-!
Verification development for a minimal hierarchical scene-graph engine:
a matrix library (`engine/math/matrixfuncs.rs`), a perspective camera with a
depth-only sphere culling test (`engine/camera.rs`), and a scene-graph node
type with cached local/world matrices, dirty propagation and a culling draw
traversal (`engine/object3d.rs`).

Modelling conventions:
* The source stores matrices as `[f32; 16]` in column-major order.  Here a
  matrix is `Mat4 := Fin 4 → Fin 4 → ℚ`, where `m c r` is the source entry
  `m[c*4+r]` (column `c`, row `r`).  Scalars are embedded as exact rationals;
  every concrete input used below is a small dyadic or integer value on which
  the `f32` computation of the source is exact (no rounding occurs), except
  where a claim is only about control flow and never about rounding.
* The source computes `f = 1.0 / tan(fov_y / 2.0)` inside
  `perspective_matrix`.  `tan` is transcendental and has no exact rational
  embedding, so the embedding carries the already-divided factor `f` as a
  parameter (field `Camera.f`); all theorems below hold for every value of
  `f`, hence in particular for the source value `1/tan(fov_y/2)`.
* `Rc<RefCell<Object3D>>` graphs are embedded as an arena: a `Store` is a
  list of nodes and a node reference is its index.  A weak parent reference
  that no longer resolves is an index with no entry in the arena.  Recursive
  methods (`mark_dirty`, `world_matrix`, `draw`) walk the graph through the
  arena with an explicit fuel parameter; the fuel only makes recursion on
  arbitrary (possibly cyclic) arenas total, and on every well-formed arena a
  fuel of `s.length` is enough, which is what the wrapper operations pass.
* GPU-side state (`gl_mesh : OnceCell<GLMesh>`, `shader`) and the GL calls in
  `draw` are collaborator state outside the core (spec section 6); `draw` is
  embedded as the traversal it performs, returning the list of nodes that
  reach the drawing stage (pass the culling test), in visit order.
-/

/-- A 3-vector, `[f32; 3]` in the source. -/
abbrev Vec3 := Fin 3 → ℚ

/-- A quaternion `[x, y, z, w]`, `[f32; 4]` in the source. -/
abbrev Quat := Fin 4 → ℚ

/-- A 4x4 matrix in column-major order: `m c r` is the source `m[c*4+r]`. -/
abbrev Mat4 := Fin 4 → Fin 4 → ℚ

/-- Identity matrix (4x4), `IDENTITY_MATRIX` in `object3d.rs`. -/
def IDENTITY_MATRIX : Mat4 :=
  ![![1, 0, 0, 0],
    ![0, 1, 0, 0],
    ![0, 0, 1, 0],
    ![0, 0, 0, 1]]

/-- `translation_matrix` from `matrixfuncs.rs`: translation terms in the
last column, identity elsewhere. -/
def translation_matrix (pos : Vec3) : Mat4 :=
  ![![1, 0, 0, 0],
    ![0, 1, 0, 0],
    ![0, 0, 1, 0],
    ![pos 0, pos 1, pos 2, 1]]

/-- `scale_matrix` from `matrixfuncs.rs`. -/
def scale_matrix (scale : Vec3) : Mat4 :=
  ![![scale 0, 0, 0, 0],
    ![0, scale 1, 0, 0],
    ![0, 0, scale 2, 0],
    ![0, 0, 0, 1]]

/-- `rotation_matrix_from_quat` from `matrixfuncs.rs`: the standard
quaternion-to-matrix conversion, column-major.  The source's abbreviations
are inlined: `x = q 0`, `y = q 1`, `z = q 2`, `w = q 3`, and `xx = x*x`,
`xy = x*y`, `wz = w*z`, and so on. -/
def rotation_matrix_from_quat (q : Quat) : Mat4 :=
  ![![1 - 2 * (q 1 * q 1 + q 2 * q 2), 2 * (q 0 * q 1 + q 3 * q 2), 2 * (q 0 * q 2 - q 3 * q 1), 0],
    ![2 * (q 0 * q 1 - q 3 * q 2), 1 - 2 * (q 0 * q 0 + q 2 * q 2), 2 * (q 1 * q 2 + q 3 * q 0), 0],
    ![2 * (q 0 * q 2 + q 3 * q 1), 2 * (q 1 * q 2 - q 3 * q 0), 1 - 2 * (q 0 * q 0 + q 1 * q 1), 0],
    ![0, 0, 0, 1]]

/-- `matrix_mul_4x4` from `matrixfuncs.rs`: `result[col*4+row] =`
`Σ k, a[k*4+row] * b[col*4+k]`, the loop unrolled as in the source. -/
def matrix_mul_4x4 (a b : Mat4) : Mat4 :=
  fun col row =>
    a 0 row * b col 0 +
    a 1 row * b col 1 +
    a 2 row * b col 2 +
    a 3 row * b col 3

/-- `perspective_matrix` from `matrixfuncs.rs`.  The source computes
`f = 1.0 / (fovy / 2.0).tan()`; `tan` has no rational embedding, so `f` is
taken as the parameter (see the header comment).  `nf = 1/(near - far)` as
in the source. -/
def perspective_matrix (f aspect near far : ℚ) : Mat4 :=
  let nf := 1 / (near - far)
  ![![f / aspect, 0, 0, 0],
    ![0, f, 0, 0],
    ![0, 0, (far + near) * nf, -1],
    ![0, 0, 2 * far * near * nf, 0]]

/-- `compute_local_matrix` from `matrixfuncs.rs`:
`(translation * rotation) * scale`. -/
def compute_local_matrix (position : Vec3) (rotation : Quat) (scale : Vec3) :
    Mat4 :=
  matrix_mul_4x4
    (matrix_mul_4x4 (translation_matrix position)
      (rotation_matrix_from_quat rotation))
    (scale_matrix scale)

/-- The camera state from `camera.rs`.  `f` stands for the factor
`1.0 / tan(fov_y / 2.0)` that the source derives from its `fov_y` field
inside `perspective_matrix` (see the header comment). -/
structure Camera where
  position : Vec3
  rotation : Quat
  f : ℚ
  aspect : ℚ
  near : ℚ
  far : ℚ
deriving DecidableEq

namespace Camera

/-- `Camera::new`: position `(0,0,5)`, identity rotation, near `0.1`, far
`100.0`.  The source sets `fov_y = 60°` in radians; its derived projection
factor `1/tan(30°)` is irrational, so it stays a parameter `f`. -/
def new (aspect : ℚ) (f : ℚ) : Camera :=
  { position := ![0, 0, 5]
    rotation := ![0, 0, 0, 1]
    f := f
    aspect := aspect
    near := 1 / 10
    far := 100 }

/-- `Camera::view_matrix`:
`rotation_matrix_from_quat(rotation) * translation_matrix(-position)`. -/
def view_matrix (c : Camera) : Mat4 :=
  matrix_mul_4x4 (rotation_matrix_from_quat c.rotation)
    (translation_matrix ![-c.position 0, -c.position 1, -c.position 2])

/-- `Camera::projection_matrix`. -/
def projection_matrix (c : Camera) : Mat4 :=
  perspective_matrix c.f c.aspect c.near c.far

/-- `Camera::proj_view_matrix`: `projection * view`, recomputed on demand. -/
def proj_view_matrix (c : Camera) : Mat4 :=
  matrix_mul_4x4 c.projection_matrix c.view_matrix

/-- `Camera::intersects_sphere`: depth-only culling test.  `clip_z` is row 2
of `proj_view_matrix` applied to the homogeneous world position
(`m[2]*x + m[6]*y + m[10]*z + m[14]` in the source), and the test is
`clip_z + radius > -1.0 && clip_z - radius < 1.0`. -/
def intersects_sphere (c : Camera) (world_pos : Vec3) (radius : ℚ) : Prop :=
  let m := c.proj_view_matrix
  let clip_z :=
    m 0 2 * world_pos 0 + m 1 2 * world_pos 1 + m 2 2 * world_pos 2 + m 3 2
  clip_z + radius > -1 ∧ clip_z - radius < 1

instance (c : Camera) (world_pos : Vec3) (radius : ℚ) :
    Decidable (c.intersects_sphere world_pos radius) := by
  unfold intersects_sphere
  exact instDecidableAnd

end Camera

/-! Evaluation lemmas for the `![...]` vector literals at each index. -/

@[simp] theorem vec3_at0 (a b c : ℚ) : (![a, b, c] : Vec3) 0 = a := rfl
@[simp] theorem vec3_at1 (a b c : ℚ) : (![a, b, c] : Vec3) 1 = b := rfl
@[simp] theorem vec3_at2 (a b c : ℚ) : (![a, b, c] : Vec3) 2 = c := rfl

@[simp] theorem vec4_at0 {α : Type} (a b c d : α) : (![a, b, c, d] : Fin 4 → α) 0 = a := rfl
@[simp] theorem vec4_at1 {α : Type} (a b c d : α) : (![a, b, c, d] : Fin 4 → α) 1 = b := rfl
@[simp] theorem vec4_at2 {α : Type} (a b c d : α) : (![a, b, c, d] : Fin 4 → α) 2 = c := rfl
@[simp] theorem vec4_at3 {α : Type} (a b c d : α) : (![a, b, c, d] : Fin 4 → α) 3 = d := rfl

/-! ## The scene-graph node (`object3d.rs`) -/

/-- Vertex format from `object3d.rs`: position, normal, uv. -/
structure Vertex where
  position : Vec3
  normal : Vec3
  uv : Fin 2 → ℚ

/-- Mesh data from `object3d.rs`: vertices plus triangle indices.  The
source uses 16-bit indices (`type Index = u16`); the index values are
embedded as naturals. -/
structure Geometry where
  vertices : List Vertex
  indices : List Nat

/-- The `Object3D` node state.  `parent` is the weak back-reference,
embedded as an arena index (`none` = no parent; an index with no arena
entry = expired weak reference).  `children` are the owned children, as
arena indices in attachment order.  The GPU-side fields of the source
(`gl_mesh : OnceCell<GLMesh>`, `shader`) are collaborator handles outside
the core (spec section 6) and carry no scene-graph state, so they are not
part of the embedding. -/
structure Object3D where
  position : Vec3
  rotation : Quat
  scale : Vec3
  local_matrix : Mat4
  world_matrix : Mat4
  dirty : Bool
  parent : Option Nat
  children : List Nat
  geometry : Option Geometry

/-- An arena of nodes: the embedding of the `Rc<RefCell<Object3D>>` heap.
A node reference is an index into the list. -/
abbrev Store := List Object3D

/-- Dereference a node (an `Rc` still alive): `none` when the index has no
entry, which embeds an expired weak reference. -/
def getObj (s : Store) (i : Nat) : Option Object3D := s[i]?

/-- Write back a node after a `RefCell` mutation. -/
def setObj (s : Store) (i : Nat) (o : Object3D) : Store := s.set i o

namespace Object3D

/-- `Object3D::new`: origin position, identity quaternion, unit scale,
identity cached matrices, initially dirty, no parent, no children. -/
def new : Object3D :=
  { position := ![0, 0, 0]
    rotation := ![0, 0, 0, 1]
    scale := ![1, 1, 1]
    local_matrix := IDENTITY_MATRIX
    world_matrix := IDENTITY_MATRIX
    dirty := true
    parent := none
    children := []
    geometry := none }

/-- `Object3D::mark_dirty`: if the node is not dirty, set the flag and
recurse into every child (the source's `for` loop is the `foldl`).  The
fuel only bounds recursion depth on arbitrary arenas; every wrapper below
passes the arena size, which section `Reachable` proves sufficient on
well-formed arenas. -/
def mark_dirty : Nat → Store → Nat → Store
  | 0, s, _ => s
  | fuel + 1, s, i =>
    match getObj s i with
    | none => s
    | some o =>
      if o.dirty then s
      else List.foldl (mark_dirty fuel) (setObj s i { o with dirty := true }) o.children

/-- `Object3D::set_geometry`: store the geometry and mark dirty. -/
def set_geometry (s : Store) (i : Nat) (g : Geometry) : Store :=
  match getObj s i with
  | none => s
  | some o => mark_dirty s.length (setObj s i { o with geometry := some g }) i

/-- `Object3D::set_position`: store the position and mark dirty. -/
def set_position (s : Store) (i : Nat) (pos : Vec3) : Store :=
  match getObj s i with
  | none => s
  | some o => mark_dirty s.length (setObj s i { o with position := pos }) i

/-- `Object3D::set_rotation`: store the quaternion and mark dirty. -/
def set_rotation (s : Store) (i : Nat) (rot : Quat) : Store :=
  match getObj s i with
  | none => s
  | some o => mark_dirty s.length (setObj s i { o with rotation := rot }) i

/-- `Object3D::set_scale`: store the scale and mark dirty. -/
def set_scale (s : Store) (i : Nat) (scale : Vec3) : Store :=
  match getObj s i with
  | none => s
  | some o => mark_dirty s.length (setObj s i { o with scale := scale }) i

/-- `Object3D::add_child`: set the child's parent back-reference, mark the
child subtree dirty, then push the child onto this node's child list. -/
def add_child (s : Store) (this child : Nat) : Store :=
  match getObj s child with
  | none => s
  | some c =>
    let s1 := setObj s child { c with parent := some this }
    let s2 := mark_dirty s1.length s1 child
    match getObj s2 this with
    | none => s2
    | some p => setObj s2 this { p with children := p.children ++ [child] }

/-- `Object3D::local_matrix`: when dirty, recompute the local matrix from
position/rotation/scale and cache it; return the cache either way.  The
dirty flag is not touched. -/
def localMatrix (s : Store) (i : Nat) : Option (Mat4 × Store) :=
  match getObj s i with
  | none => none
  | some o =>
    if o.dirty then
      let lm := compute_local_matrix o.position o.rotation o.scale
      some (lm, setObj s i { o with local_matrix := lm })
    else
      some (o.local_matrix, s)

/-- `Object3D::world_matrix`: when dirty, recompute the local matrix, then
combine with the parent's recursively recomputed world matrix when the
parent reference resolves (fall back to the local matrix when there is no
parent or the weak reference has expired), cache the result and clear the
dirty flag; when clean, return the cache and change nothing.  `none` only
when the fuel runs out on a cyclic arena (where the source would panic on
a second `RefCell` borrow). -/
def worldMatrix : Nat → Store → Nat → Option (Mat4 × Store)
  | 0, _, _ => none
  | fuel + 1, s, i =>
    match getObj s i with
    | none => none
    | some o =>
      if o.dirty then
        let lm := compute_local_matrix o.position o.rotation o.scale
        match o.parent with
        | some p =>
          match getObj s p with
          | some _ =>
            match worldMatrix fuel s p with
            | none => none
            | some (pw, s1) =>
              let wm := matrix_mul_4x4 pw lm
              some (wm, setObj s1 i { o with local_matrix := lm, world_matrix := wm, dirty := false })
          | none =>
            some (lm, setObj s i { o with local_matrix := lm, world_matrix := lm, dirty := false })
        | none =>
          some (lm, setObj s i { o with local_matrix := lm, world_matrix := lm, dirty := false })
      else
        some (o.world_matrix, s)

end Object3D

/-! ## Matrix algebra lemmas -/

/-- The conjugate quaternion `[-x, -y, -z, w]`, used to state which world
placement `view_matrix` actually inverts. -/
def quat_conj (q : Quat) : Quat := ![-q 0, -q 1, -q 2, q 3]

/-- Two 4x4 matrices with the same sixteen entries are equal. -/
theorem mat4_ext16 {A B : Mat4}
    (e00 : A 0 0 = B 0 0) (e01 : A 0 1 = B 0 1) (e02 : A 0 2 = B 0 2) (e03 : A 0 3 = B 0 3)
    (e10 : A 1 0 = B 1 0) (e11 : A 1 1 = B 1 1) (e12 : A 1 2 = B 1 2) (e13 : A 1 3 = B 1 3)
    (e20 : A 2 0 = B 2 0) (e21 : A 2 1 = B 2 1) (e22 : A 2 2 = B 2 2) (e23 : A 2 3 = B 2 3)
    (e30 : A 3 0 = B 3 0) (e31 : A 3 1 = B 3 1) (e32 : A 3 2 = B 3 2) (e33 : A 3 3 = B 3 3) :
    A = B := by
  funext c r
  fin_cases c <;> fin_cases r <;> assumption

/-- The identity matrix is a left unit for `matrix_mul_4x4`. -/
theorem id_mul4 (m : Mat4) : matrix_mul_4x4 IDENTITY_MATRIX m = m := by
  funext c r
  fin_cases r <;>
    simp [matrix_mul_4x4, IDENTITY_MATRIX, Matrix.vecHead, Matrix.vecTail]

/-- The identity matrix is a right unit for `matrix_mul_4x4`. -/
theorem mul_id4 (m : Mat4) : matrix_mul_4x4 m IDENTITY_MATRIX = m := by
  funext c r
  fin_cases c <;>
    simp [matrix_mul_4x4, IDENTITY_MATRIX, Matrix.vecHead, Matrix.vecTail]

/-- `matrix_mul_4x4` is associative. -/
theorem mul_assoc4 (a b c : Mat4) :
    matrix_mul_4x4 (matrix_mul_4x4 a b) c = matrix_mul_4x4 a (matrix_mul_4x4 b c) := by
  funext i j
  simp only [matrix_mul_4x4]
  ring1

/-- Translating by the negated position undoes translating by the position. -/
theorem trans_neg_mul_trans (p : Vec3) :
    matrix_mul_4x4 (translation_matrix ![-p 0, -p 1, -p 2]) (translation_matrix p) =
      IDENTITY_MATRIX := by
  apply mat4_ext16 <;>
    simp only [matrix_mul_4x4, translation_matrix, IDENTITY_MATRIX, vec3_at0, vec3_at1,
      vec3_at2, vec4_at0, vec4_at1, vec4_at2, vec4_at3] <;>
    ring1

/-- For a unit quaternion, the rotation matrix of the conjugate is the
(transposed) inverse: `R(q) * R(conj q) = I`. -/
theorem rot_mul_conj (q : Quat)
    (h : q 0 * q 0 + q 1 * q 1 + q 2 * q 2 + q 3 * q 3 = 1) :
    matrix_mul_4x4 (rotation_matrix_from_quat q)
      (rotation_matrix_from_quat (quat_conj q)) = IDENTITY_MATRIX := by
  apply mat4_ext16 <;>
    simp only [matrix_mul_4x4, rotation_matrix_from_quat, quat_conj, IDENTITY_MATRIX,
      vec4_at0, vec4_at1, vec4_at2, vec4_at3] <;>
  first
    | ring1
    | linear_combination (4 * (q 1 * q 1 + q 2 * q 2)) * h
    | linear_combination (4 * (q 0 * q 0 + q 2 * q 2)) * h
    | linear_combination (4 * (q 0 * q 0 + q 1 * q 1)) * h
    | linear_combination (-4 * q 0 * q 1) * h
    | linear_combination (-4 * q 0 * q 2) * h
    | linear_combination (-4 * q 1 * q 2) * h

/-! ## Claim C1: culling end-to-end (code bug) -/

/-- C1.  The claim says that for a camera built by `Camera::new` (position
`(0,0,5)`, identity rotation, near `0.1`, far `100.0`), `intersects_sphere`
returns true for a sphere at the world origin with radius `1.0` and false
for a sphere at `(0,0,-500)`.  The code disagrees on the first part: it
compares the raw (not perspective-divided) clip-space `clip_z` against the
`[-1, 1]` range, and for the origin sphere `clip_z = 4805/999` (about 4.81,
the divisor `clip_w = 5` never being applied), so `clip_z - radius < 1`
fails and the function returns false for a sphere dead-center in view.
This theorem evaluates the embedded code at both inputs, for every
projection factor `f` and aspect ratio: the origin sphere is reported NOT
visible (contradicting the claim and the function's own documentation),
and the far sphere is also reported not visible (agreeing with the claim). -/
theorem C1_culling_end_to_end_eval (f aspect : ℚ) :
    ¬ (Camera.new aspect f).intersects_sphere ![0, 0, 0] 1 ∧
    ¬ (Camera.new aspect f).intersects_sphere ![0, 0, -500] 1 := by
  constructor <;>
    · simp only [Camera.intersects_sphere, Camera.proj_view_matrix,
        Camera.projection_matrix, Camera.view_matrix, Camera.new, perspective_matrix,
        rotation_matrix_from_quat, translation_matrix, matrix_mul_4x4,
        vec3_at0, vec3_at1, vec3_at2, vec4_at0, vec4_at1, vec4_at2, vec4_at3]
      norm_num

/-! ## Claim C4: the view matrix and the placement it inverts (corrected) -/

/-- C4, counterexample.  The claim states that `view_matrix` is the inverse
of the transform placing the camera at `p` with orientation `q`, that is,
of `translation(p) * rotation_from_quaternion(q)`.  For the unit quaternion
`(1/2, 1/2, 1/2, 1/2)` (a 120-degree rotation, exactly representable in
`f32`) at `p = 0`, the product of `view_matrix` with that placement is
`R(q) * R(q)`, whose entry `(0,0)` is `0`, not `1`: the product is not the
identity, so `view_matrix` is not that inverse. -/
theorem C4_counterexample :
    ¬ matrix_mul_4x4
        (Camera.view_matrix
          { position := ![0, 0, 0], rotation := ![1/2, 1/2, 1/2, 1/2],
            f := 1, aspect := 1, near := 1/10, far := 100 })
        (matrix_mul_4x4 (translation_matrix ![0, 0, 0])
          (rotation_matrix_from_quat ![1/2, 1/2, 1/2, 1/2])) =
      IDENTITY_MATRIX := by
  intro hEq
  have h := congrFun (congrFun hEq 0) 0
  simp only [Camera.view_matrix, matrix_mul_4x4, rotation_matrix_from_quat,
    translation_matrix, IDENTITY_MATRIX, vec3_at0, vec3_at1, vec3_at2,
    vec4_at0, vec4_at1, vec4_at2, vec4_at3] at h
  norm_num at h

/-- C4, amended.  `view_matrix()` returns
`rotation_from_quaternion(q) * translation(-p)` exactly as claimed; for a
unit quaternion `q` this matrix is the inverse of
`translation(p) * rotation_from_quaternion(conj q)` — the world placement
whose orientation is the CONJUGATE of `q` (for the identity rotation, and
any involutive rotation, the two placements coincide, which is as much as
the original sentence can keep). -/
theorem C4_view_matrix_amended (c : Camera)
    (h : c.rotation 0 * c.rotation 0 + c.rotation 1 * c.rotation 1 +
         c.rotation 2 * c.rotation 2 + c.rotation 3 * c.rotation 3 = 1) :
    c.view_matrix =
      matrix_mul_4x4 (rotation_matrix_from_quat c.rotation)
        (translation_matrix ![-c.position 0, -c.position 1, -c.position 2]) ∧
    matrix_mul_4x4 c.view_matrix
        (matrix_mul_4x4 (translation_matrix c.position)
          (rotation_matrix_from_quat (quat_conj c.rotation))) =
      IDENTITY_MATRIX := by
  refine ⟨rfl, ?_⟩
  calc
    matrix_mul_4x4 c.view_matrix
        (matrix_mul_4x4 (translation_matrix c.position)
          (rotation_matrix_from_quat (quat_conj c.rotation)))
      = matrix_mul_4x4 (rotation_matrix_from_quat c.rotation)
          (matrix_mul_4x4
            (translation_matrix ![-c.position 0, -c.position 1, -c.position 2])
            (matrix_mul_4x4 (translation_matrix c.position)
              (rotation_matrix_from_quat (quat_conj c.rotation)))) := by
        rw [Camera.view_matrix, mul_assoc4]
    _ = matrix_mul_4x4 (rotation_matrix_from_quat c.rotation)
          (matrix_mul_4x4
            (matrix_mul_4x4
              (translation_matrix ![-c.position 0, -c.position 1, -c.position 2])
              (translation_matrix c.position))
            (rotation_matrix_from_quat (quat_conj c.rotation))) := by
        rw [mul_assoc4]
    _ = matrix_mul_4x4 (rotation_matrix_from_quat c.rotation)
          (rotation_matrix_from_quat (quat_conj c.rotation)) := by
        rw [trans_neg_mul_trans, id_mul4]
    _ = IDENTITY_MATRIX := rot_mul_conj c.rotation h

/-- The concrete camera used to witness `C4_view_matrix_amended`. -/
def c4WitnessCamera : Camera :=
  { position := ![3, -2, 7], rotation := ![1, 0, 0, 0],
    f := 2, aspect := 3, near := 1/10, far := 100 }

/-- C4, witness: the amended statement at a concrete camera (position
`(3,-2,7)`, the unit quaternion `(1,0,0,0)`). -/
theorem C4_view_matrix_amended_witness :
    (c4WitnessCamera.rotation 0 * c4WitnessCamera.rotation 0 +
     c4WitnessCamera.rotation 1 * c4WitnessCamera.rotation 1 +
     c4WitnessCamera.rotation 2 * c4WitnessCamera.rotation 2 +
     c4WitnessCamera.rotation 3 * c4WitnessCamera.rotation 3 = 1) ∧
    (c4WitnessCamera.view_matrix =
      matrix_mul_4x4 (rotation_matrix_from_quat c4WitnessCamera.rotation)
        (translation_matrix
          ![-c4WitnessCamera.position 0, -c4WitnessCamera.position 1,
            -c4WitnessCamera.position 2]) ∧
    matrix_mul_4x4 c4WitnessCamera.view_matrix
        (matrix_mul_4x4 (translation_matrix c4WitnessCamera.position)
          (rotation_matrix_from_quat (quat_conj c4WitnessCamera.rotation))) =
      IDENTITY_MATRIX) :=
  ⟨by norm_num [c4WitnessCamera],
   C4_view_matrix_amended c4WitnessCamera (by norm_num [c4WitnessCamera])⟩


/-! ## Basic arena lemmas -/

theorem getObj_some_lt {s : Store} {i : Nat} {o : Object3D}
    (h : getObj s i = some o) : i < s.length := by
  by_contra hlt
  rw [getObj, List.getElem?_eq_none (Nat.le_of_not_lt hlt)] at h
  exact Option.noConfusion h

theorem length_setObj (s : Store) (i : Nat) (o : Object3D) :
    (setObj s i o).length = s.length := List.length_set s i o

theorem getObj_setObj_self {s : Store} {i : Nat} (o : Object3D)
    (h : i < s.length) : getObj (setObj s i o) i = some o := by
  rw [getObj, setObj, List.getElem?_set_self h]

theorem getObj_setObj_ne {s : Store} {i j : Nat} (o : Object3D)
    (h : i ≠ j) : getObj (setObj s i o) j = getObj s j := by
  rw [getObj, setObj, List.getElem?_set_ne h]
  rfl

/-- A node is present and dirty. -/
def dirtyAt (s : Store) (i : Nat) : Prop :=
  ∃ o, getObj s i = some o ∧ o.dirty = true

/-! ## `worldMatrix`: caching and the clean fast path -/

/-- A successful `worldMatrix` run never changes the arena size. -/
theorem wm_length : ∀ {fuel : Nat} {s : Store} {i : Nat} {m : Mat4} {s' : Store},
    Object3D.worldMatrix fuel s i = some (m, s') → s'.length = s.length := by
  intro fuel
  induction fuel with
  | zero => intro s i m s' h; exact Option.noConfusion h
  | succ fuel ih =>
    intro s i m s' h
    rw [Object3D.worldMatrix] at h
    split at h
    · exact Option.noConfusion h
    · split at h
      · split at h
        · split at h
          · split at h
            · exact Option.noConfusion h
            · rename_i o hg hd p hp po hpp r pw s1 hrec
              cases h
              rw [length_setObj]
              exact ih hrec
          · cases h
            exact length_setObj ..
        · cases h
          exact length_setObj ..
      · cases h
        rfl

/-- After a successful `worldMatrix` run the target node is cached clean:
it is present, its dirty flag is cleared, and its cached world matrix is
the returned matrix. -/
theorem wm_post : ∀ {fuel : Nat} {s : Store} {i : Nat} {m : Mat4} {s' : Store},
    Object3D.worldMatrix fuel s i = some (m, s') →
    ∃ o', getObj s' i = some o' ∧ o'.dirty = false ∧ o'.world_matrix = m := by
  intro fuel
  induction fuel with
  | zero => intro s i m s' h; exact Option.noConfusion h
  | succ fuel ih =>
    intro s i m s' h
    rw [Object3D.worldMatrix] at h
    split at h
    · exact Option.noConfusion h
    · rename_i o hg
      have hi : i < s.length := getObj_some_lt hg
      split at h
      · split at h
        · split at h
          · split at h
            · exact Option.noConfusion h
            · rename_i hd p hp po hpp r pw s1 hrec
              cases h
              have hlen : s1.length = s.length := wm_length hrec
              refine ⟨_, getObj_setObj_self _ (hlen ▸ hi), rfl, rfl⟩
          · rename_i hd p hp hpp
            cases h
            exact ⟨_, getObj_setObj_self _ hi, rfl, rfl⟩
        · rename_i hd hp
          cases h
          exact ⟨_, getObj_setObj_self _ hi, rfl, rfl⟩
      · rename_i hd
        cases h
        exact ⟨o, hg, Bool.not_eq_true _ ▸ Bool.of_not_eq_true hd, rfl⟩

/-! ## Claim C9: idempotence of the clean read -/

/-- C9.  Once `world_matrix()` has returned on a node, the node is cached
clean, and calling `world_matrix()` again with no intervening mutation (any
amount of fuel suffices since the node is clean) returns the identical
matrix together with the identical arena — the clean fast path performs no
recomputation and changes no state. -/
theorem C9_clean_read_idempotent {fuel : Nat} {s : Store} {i : Nat} {m : Mat4}
    {s' : Store} (h : Object3D.worldMatrix fuel s i = some (m, s')) :
    (∃ o', getObj s' i = some o' ∧ o'.dirty = false ∧ o'.world_matrix = m) ∧
    ∀ fuel' : Nat, Object3D.worldMatrix (fuel' + 1) s' i = some (m, s') := by
  obtain ⟨o', ho', hdirty, hwm⟩ := wm_post h
  refine ⟨⟨o', ho', hdirty, hwm⟩, fun fuel' => ?_⟩
  rw [Object3D.worldMatrix, ho']
  simp [hdirty, hwm]

/-- The one-node arena used to witness the `worldMatrix` claims. -/
def wmStore : Store := [Object3D.new]

/-- The local matrix `worldMatrix` computes for a fresh node. -/
def wmMat : Mat4 := compute_local_matrix ![0, 0, 0] ![0, 0, 0, 1] ![1, 1, 1]

/-- The fresh node of `wmStore` after `worldMatrix` caches `wmMat`. -/
def wmNode : Object3D :=
  { Object3D.new with local_matrix := wmMat, world_matrix := wmMat, dirty := false }

/-- The arena after `worldMatrix` runs on the fresh node of `wmStore`. -/
def wmStore' : Store := [wmNode]

/-- C9, witness: a fresh one-node arena; the first `worldMatrix` call caches
`wmMat`, and the claim instantiates there. -/
theorem C9_clean_read_idempotent_witness :
    Object3D.worldMatrix 1 wmStore 0 = some (wmMat, wmStore') ∧
    ((∃ o', getObj wmStore' 0 = some o' ∧ o'.dirty = false ∧ o'.world_matrix = wmMat) ∧
     ∀ fuel' : Nat, Object3D.worldMatrix (fuel' + 1) wmStore' 0 = some (wmMat, wmStore')) :=
  ⟨rfl, C9_clean_read_idempotent
    (show Object3D.worldMatrix 1 wmStore 0 = some (wmMat, wmStore') from rfl)⟩

/-! ## Claim C2: the `world_matrix` recomputation algorithm -/

/-- The claimed behavior of `world_matrix()` on the node `o` at index `i`
(with recursion fuel `fuel + 1`): if the node is not dirty, the cached
world matrix is returned and no state changes; if it is dirty, the local
matrix is recomputed from position/rotation/scale, then — when a parent
back-reference exists and resolves — the parent's world matrix is
recursively computed first and `world_matrix = parent_world * local`,
otherwise `world_matrix = local`, the caches are written back and the
dirty flag is cleared. -/
def WorldMatrixSpec (fuel : Nat) (s : Store) (i : Nat) (o : Object3D) : Prop :=
  (o.dirty = false → Object3D.worldMatrix (fuel + 1) s i = some (o.world_matrix, s)) ∧
  (o.dirty = true →
    (o.parent = none →
      Object3D.worldMatrix (fuel + 1) s i =
        some (compute_local_matrix o.position o.rotation o.scale,
          setObj s i { o with
            local_matrix := compute_local_matrix o.position o.rotation o.scale,
            world_matrix := compute_local_matrix o.position o.rotation o.scale,
            dirty := false })) ∧
    (∀ p, o.parent = some p →
      (getObj s p = none →
        Object3D.worldMatrix (fuel + 1) s i =
          some (compute_local_matrix o.position o.rotation o.scale,
            setObj s i { o with
              local_matrix := compute_local_matrix o.position o.rotation o.scale,
              world_matrix := compute_local_matrix o.position o.rotation o.scale,
              dirty := false })) ∧
      ((∃ po, getObj s p = some po) →
        Object3D.worldMatrix (fuel + 1) s i =
          (Object3D.worldMatrix fuel s p).map (fun r =>
            (matrix_mul_4x4 r.1 (compute_local_matrix o.position o.rotation o.scale),
             setObj r.2 i { o with
               local_matrix := compute_local_matrix o.position o.rotation o.scale,
               world_matrix :=
                 matrix_mul_4x4 r.1 (compute_local_matrix o.position o.rotation o.scale),
               dirty := false })))))

/-- C2.  `world_matrix()` behaves exactly as the specification describes,
case by case: clean nodes return the cache with no state change; dirty
nodes recompute the local matrix, compose with the recursively recomputed
world matrix of a resolvable parent (or fall back to the local matrix),
cache, and clear the dirty flag. -/
theorem C2_world_matrix_spec {fuel : Nat} {s : Store} {i : Nat} {o : Object3D}
    (hg : getObj s i = some o) : WorldMatrixSpec fuel s i o := by
  refine ⟨?_, fun hd => ⟨?_, fun p hp => ⟨?_, ?_⟩⟩⟩
  · intro hd
    rw [Object3D.worldMatrix, hg]
    simp [hd]
  · intro hp
    rw [Object3D.worldMatrix, hg]
    simp [hd, hp]
  · intro hpp
    rw [Object3D.worldMatrix, hg]
    simp [hd, hp, hpp]
  · rintro ⟨po, hpp⟩
    rw [Object3D.worldMatrix, hg]
    cases hrec : Object3D.worldMatrix fuel s p with
    | none => simp [hd, hp, hpp, hrec]
    | some r =>
      cases r
      simp [hd, hp, hpp, hrec]

/-- C2, witness: the specification instantiated on a fresh one-node arena. -/
theorem C2_world_matrix_spec_witness :
    getObj wmStore 0 = some Object3D.new ∧ WorldMatrixSpec 0 wmStore 0 Object3D.new :=
  ⟨rfl, C2_world_matrix_spec rfl⟩

/-! ## Claim C8: dangling parent falls back to the local matrix -/

/-- C8.  When a dirty node's parent back-reference no longer resolves (the
arena has no entry at the parent index: the parent was dropped while the
child is retained), `world_matrix()` still succeeds — no error — and the
node is treated as a root: the computed world matrix is exactly the node's
own recomputed local matrix. -/
theorem C8_dangling_parent_fallback {fuel : Nat} {s : Store} {i : Nat}
    {o : Object3D} {p : Nat}
    (hg : getObj s i = some o) (hd : o.dirty = true)
    (hp : o.parent = some p) (hpp : getObj s p = none) :
    Object3D.worldMatrix (fuel + 1) s i =
      some (compute_local_matrix o.position o.rotation o.scale,
        setObj s i { o with
          local_matrix := compute_local_matrix o.position o.rotation o.scale,
          world_matrix := compute_local_matrix o.position o.rotation o.scale,
          dirty := false }) := by
  rw [Object3D.worldMatrix, hg]
  simp [hd, hp, hpp]

/-- The node of the dangling-parent witness arena: a fresh node whose
parent index resolves to no arena entry (parent destroyed, child kept). -/
def c8Node : Object3D := { Object3D.new with parent := some 7 }

/-- A one-node arena containing only `c8Node`. -/
def c8Store : Store := [c8Node]

/-- C8, witness: the dangling-parent fallback at the concrete arena
`c8Store` (parent index 7 resolves to nothing). -/
theorem C8_dangling_parent_fallback_witness :
    getObj c8Store 0 = some c8Node ∧ c8Node.dirty = true ∧
    c8Node.parent = some 7 ∧ getObj c8Store 7 = none ∧
    Object3D.worldMatrix 1 c8Store 0 =
      some (compute_local_matrix c8Node.position c8Node.rotation c8Node.scale,
        setObj c8Store 0 { c8Node with
          local_matrix := compute_local_matrix c8Node.position c8Node.rotation c8Node.scale,
          world_matrix := compute_local_matrix c8Node.position c8Node.rotation c8Node.scale,
          dirty := false }) :=
  ⟨rfl, rfl, rfl, rfl,
    C8_dangling_parent_fallback
      (show getObj c8Store 0 = some c8Node from rfl) rfl rfl rfl⟩

/-! ## Claim C6: `local_matrix` recomputes but never clears the flag -/

/-- C6.  On a dirty node, `local_matrix()` recomputes the local matrix from
the current position/rotation/scale and caches it, and nothing else: the
written-back node keeps `dirty = true` and keeps the stale cached world
matrix unchanged (only `world_matrix()` clears the flag, as proved for C2). -/
theorem C6_local_matrix_dirty {s : Store} {i : Nat} {o : Object3D}
    (hg : getObj s i = some o) (hd : o.dirty = true) :
    Object3D.localMatrix s i =
      some (compute_local_matrix o.position o.rotation o.scale,
        setObj s i { o with
          local_matrix := compute_local_matrix o.position o.rotation o.scale }) ∧
    ({ o with local_matrix := compute_local_matrix o.position o.rotation o.scale } :
      Object3D).dirty = true ∧
    ({ o with local_matrix := compute_local_matrix o.position o.rotation o.scale } :
      Object3D).world_matrix = o.world_matrix := by
  refine ⟨?_, hd, rfl⟩
  rw [Object3D.localMatrix, hg]
  simp [hd]

/-- C6, witness: `local_matrix()` on the fresh (dirty) one-node arena. -/
theorem C6_local_matrix_dirty_witness :
    getObj wmStore 0 = some Object3D.new ∧ Object3D.new.dirty = true ∧
    (Object3D.localMatrix wmStore 0 =
      some (compute_local_matrix Object3D.new.position Object3D.new.rotation Object3D.new.scale,
        setObj wmStore 0 { Object3D.new with
          local_matrix :=
            compute_local_matrix Object3D.new.position Object3D.new.rotation
              Object3D.new.scale }) ∧
    ({ Object3D.new with
        local_matrix :=
          compute_local_matrix Object3D.new.position Object3D.new.rotation
            Object3D.new.scale } : Object3D).dirty = true ∧
    ({ Object3D.new with
        local_matrix :=
          compute_local_matrix Object3D.new.position Object3D.new.rotation
            Object3D.new.scale } : Object3D).world_matrix = Object3D.new.world_matrix) :=
  ⟨rfl, rfl,
    C6_local_matrix_dirty (show getObj wmStore 0 = some Object3D.new from rfl) rfl⟩

/-! ## The culling draw traversal (`Object3D::draw`) -/

namespace Object3D

/-- `Object3D::draw`: recompute `world_matrix`, extract the world position
(the translation column `m[12], m[13], m[14]`), cull against the camera
with the fixed unit bounding radius; on failure return immediately, on
success reach the drawing stage (GPU work is collaborator-side; the node
index is recorded in the returned visit list) and then draw every child in
attachment order.  The fold over children is the source's `for` loop. -/
def draw : Nat → Camera → Store → Nat → Option (Store × List Nat)
  | 0, _, _, _ => none
  | fuel + 1, cam, s, i =>
    match worldMatrix s.length s i with
    | none => none
    | some (wm, s1) =>
      if cam.intersects_sphere ![wm 3 0, wm 3 1, wm 3 2] 1 then
        match getObj s1 i with
        | none => none
        | some o =>
          List.foldl
            (fun acc c =>
              match acc with
              | none => none
              | some r =>
                match draw fuel cam r.1 c with
                | none => none
                | some r2 => some (r2.1, r.2 ++ r2.2))
            (some (s1, [i])) o.children
      else
        some (s1, [])

/-- The draw traversal of a list of children, left to right (the loop of
`draw`, started with an empty visit list). -/
def drawKids (fuel : Nat) (cam : Camera) (s : Store) (l : List Nat) :
    Option (Store × List Nat) :=
  List.foldl
    (fun acc c =>
      match acc with
      | none => none
      | some r =>
        match draw fuel cam r.1 c with
        | none => none
        | some r2 => some (r2.1, r.2 ++ r2.2))
    (some (s, [])) l

end Object3D

/-- The children fold of `draw` propagates a failed accumulator. -/
theorem draw_foldl_none (fuel : Nat) (cam : Camera) : ∀ cs : List Nat,
    List.foldl
      (fun acc c =>
        match acc with
        | none => none
        | some r =>
          match Object3D.draw fuel cam r.1 c with
          | none => none
          | some r2 => some (r2.1, r.2 ++ r2.2))
      (none : Option (Store × List Nat)) cs = none := by
  intro cs
  induction cs with
  | nil => rfl
  | cons d ds ihd => exact ihd

/-- The children fold of `draw`, started from any visit prefix, is
`drawKids` with the prefix prepended. -/
theorem draw_foldl_eq_drawKids (fuel : Nat) (cam : Camera) (l : List Nat) :
    ∀ (s : Store) (ev : List Nat),
      List.foldl
        (fun acc c =>
          match acc with
          | none => none
          | some r =>
            match Object3D.draw fuel cam r.1 c with
            | none => none
            | some r2 => some (r2.1, r.2 ++ r2.2))
        (some (s, ev)) l =
      (Object3D.drawKids fuel cam s l).map (fun r => (r.1, ev ++ r.2)) := by
  induction l with
  | nil =>
    intro s ev
    simp [Object3D.drawKids]
  | cons c cs ih =>
    intro s ev
    rw [Object3D.drawKids]
    simp only [List.foldl_cons]
    cases hdc : Object3D.draw fuel cam s c with
    | none =>
      simp only [hdc, draw_foldl_none]
      rfl
    | some r2 =>
      simp only [hdc]
      rw [ih r2.1 (ev ++ r2.2), ih r2.1 ([] ++ r2.2)]
      cases Object3D.drawKids fuel cam r2.1 cs with
      | none => rfl
      | some r3 => simp

/-! ## Claim C7: culling gates the node and its whole subtree -/

/-- C7.  `draw(camera)` first recomputes the world matrix (arena `s1`),
takes the world position from the translation column of the result, and
tests it against the camera with the fixed radius `1.0`.  When the test
fails, `draw` returns immediately: the visit list is empty — no draw work
is issued for the node and no child is entered.  When the test passes, the
node reaches the drawing stage and `draw` recurses into every child in
attachment order (`drawKids` is the left-to-right loop over
`o.children`). -/
theorem C7_draw_culling {fuel : Nat} {cam : Camera} {s s1 : Store} {i : Nat}
    {wm : Mat4} {o : Object3D}
    (hw : Object3D.worldMatrix s.length s i = some (wm, s1))
    (hg : getObj s1 i = some o) :
    (¬ cam.intersects_sphere ![wm 3 0, wm 3 1, wm 3 2] 1 →
      Object3D.draw (fuel + 1) cam s i = some (s1, [])) ∧
    (cam.intersects_sphere ![wm 3 0, wm 3 1, wm 3 2] 1 →
      Object3D.draw (fuel + 1) cam s i =
        (Object3D.drawKids fuel cam s1 o.children).map (fun r => (r.1, i :: r.2))) := by
  constructor
  · intro hcull
    rw [Object3D.draw, hw]
    dsimp only
    rw [if_neg hcull]
  · intro hvis
    rw [Object3D.draw, hw]
    dsimp only
    rw [if_pos hvis, hg]
    dsimp only
    rw [draw_foldl_eq_drawKids]
    rfl

/-- C7, witness: the claim instantiated on the fresh one-node arena with
the default camera (whose depth test, see C1, in fact culls the origin). -/
theorem C7_draw_culling_witness :
    Object3D.worldMatrix wmStore.length wmStore 0 = some (wmMat, wmStore') ∧
    getObj wmStore' 0 = some wmNode ∧
    ((¬ (Camera.new 1 2).intersects_sphere ![wmMat 3 0, wmMat 3 1, wmMat 3 2] 1 →
      Object3D.draw 1 (Camera.new 1 2) wmStore 0 = some (wmStore', [])) ∧
    ((Camera.new 1 2).intersects_sphere ![wmMat 3 0, wmMat 3 1, wmMat 3 2] 1 →
      Object3D.draw 1 (Camera.new 1 2) wmStore 0 =
        (Object3D.drawKids 0 (Camera.new 1 2) wmStore' wmNode.children).map
          (fun r => (r.1, 0 :: r.2)))) :=
  ⟨rfl, rfl,
    C7_draw_culling
      (show Object3D.worldMatrix wmStore.length wmStore 0 = some (wmMat, wmStore')
        from rfl)
      (show getObj wmStore' 0 = some wmNode from rfl)⟩

/-! ## Claim C10: parent composition on a two-level chain -/

/-- The two-node arena of the parent-composition test, built through the
public operations: two fresh nodes, the root (index 0) moved to `(1,0,0)`,
the child (index 1) attached via `add_child` and moved to `(0,2,0)`. -/
def c10Store : Store :=
  Object3D.set_position
    (Object3D.add_child
      (Object3D.set_position [Object3D.new, Object3D.new] 0 ![1, 0, 0])
      0 1)
    1 ![0, 2, 0]

/-- The root node of `c10Store`. -/
def c10Root : Object3D :=
  { Object3D.new with position := ![1, 0, 0], children := [1] }

/-- The child node of `c10Store`. -/
def c10Child : Object3D :=
  { Object3D.new with position := ![0, 2, 0], parent := some 0 }

/-- The local matrix of the root of `c10Store`. -/
def c10LmRoot : Mat4 := compute_local_matrix ![1, 0, 0] ![0, 0, 0, 1] ![1, 1, 1]

/-- The local matrix of the child of `c10Store`. -/
def c10LmChild : Mat4 := compute_local_matrix ![0, 2, 0] ![0, 0, 0, 1] ![1, 1, 1]

/-- The arena after the child's `world_matrix()` recomputed the chain. -/
def c10After : Store :=
  [{ c10Root with
      local_matrix := c10LmRoot
      world_matrix := c10LmRoot
      dirty := false },
   { c10Child with
      local_matrix := c10LmChild
      world_matrix := matrix_mul_4x4 c10LmRoot c10LmChild
      dirty := false }]

/-- C10.  On the two-level chain (root at `(1,0,0)`, identity rotation and
unit scale; child attached by `add_child` at local `(0,2,0)`), the
translation column of the child's `world_matrix()` is exactly `(1,2,0)`:
the world matrix is `parent_world * local` and every number involved is
exactly representable, so the equality is exact. -/
theorem C10_parent_composition :
    (Object3D.worldMatrix c10Store.length c10Store 1).map
        (fun r => (r.1 3 0, r.1 3 1, r.1 3 2)) =
      some ((1 : ℚ), (2 : ℚ), (0 : ℚ)) := by
  have hs : c10Store = [c10Root, c10Child] := rfl
  have hw : Object3D.worldMatrix c10Store.length c10Store 1 =
      some (matrix_mul_4x4 c10LmRoot c10LmChild, c10After) := rfl
  rw [hw]
  rw [show (some (matrix_mul_4x4 c10LmRoot c10LmChild, c10After)).map
      (fun r => (r.1 3 0, r.1 3 1, r.1 3 2)) =
      some (matrix_mul_4x4 c10LmRoot c10LmChild 3 0,
        matrix_mul_4x4 c10LmRoot c10LmChild 3 1,
        matrix_mul_4x4 c10LmRoot c10LmChild 3 2) from rfl]
  refine congrArg some ?_
  have e0 : matrix_mul_4x4 c10LmRoot c10LmChild 3 0 = 1 := by
    simp only [c10LmRoot, c10LmChild, compute_local_matrix, matrix_mul_4x4,
      translation_matrix, rotation_matrix_from_quat, scale_matrix,
      vec3_at0, vec3_at1, vec3_at2, vec4_at0, vec4_at1, vec4_at2, vec4_at3]
    norm_num
  have e1 : matrix_mul_4x4 c10LmRoot c10LmChild 3 1 = 2 := by
    simp only [c10LmRoot, c10LmChild, compute_local_matrix, matrix_mul_4x4,
      translation_matrix, rotation_matrix_from_quat, scale_matrix,
      vec3_at0, vec3_at1, vec3_at2, vec4_at0, vec4_at1, vec4_at2, vec4_at3]
    norm_num
  have e2 : matrix_mul_4x4 c10LmRoot c10LmChild 3 2 = 0 := by
    simp only [c10LmRoot, c10LmChild, compute_local_matrix, matrix_mul_4x4,
      translation_matrix, rotation_matrix_from_quat, scale_matrix,
      vec3_at0, vec3_at1, vec3_at2, vec4_at0, vec4_at1, vec4_at2, vec4_at3]
    norm_num
  rw [e0, e1, e2]

/-! ## The scene-graph invariants

The dirty-propagation claims quantify over every arena reachable through
the public operations.  This section defines the child-edge relation, the
descendant relation and the well-formedness invariant of such arenas:
children indices are live, the child list and the parent back-reference
agree, the child relation is acyclic (certified by a rank function), and
dirtiness is closed downward (the invariant of claim C5). -/

/-- `b` is a child of `a` in the arena. -/
def Cedge (s : Store) (a b : Nat) : Prop :=
  ∃ o, getObj s a = some o ∧ b ∈ o.children

/-- `j` is in the subtree of `i` (reflexive-transitive closure of the
child relation). -/
def Desc (s : Store) : Nat → Nat → Prop := Relation.ReflTransGen (Cedge s)

/-- Every child index points at an arena entry. -/
def ChildrenLive (s : Store) : Prop :=
  ∀ a oa, getObj s a = some oa → ∀ c ∈ oa.children, c < s.length

/-- A node in a child list points back at exactly that parent. -/
def ParentCoherent (s : Store) : Prop :=
  ∀ a oa c oc, getObj s a = some oa → c ∈ oa.children → getObj s c = some oc →
    oc.parent = some a

/-- The child relation strictly decreases some rank: no cycles. -/
def AcyclicChildren (s : Store) : Prop :=
  ∃ rk : Nat → Nat, ∀ a b, Cedge s a b → rk b < rk a

/-- A dirty node has only dirty children (the claim C5 invariant). -/
def DirtyDown (s : Store) : Prop :=
  ∀ a oa, getObj s a = some oa → oa.dirty = true → ∀ c ∈ oa.children, dirtyAt s c

/-- The well-formedness invariant of reachable arenas. -/
def WfStore (s : Store) : Prop :=
  ChildrenLive s ∧ ParentCoherent s ∧ AcyclicChildren s ∧ DirtyDown s

/-- Every in-range index of an arena is an entry. -/
theorem getObj_lt_some {s : Store} {j : Nat} (h : j < s.length) :
    ∃ o, getObj s j = some o :=
  ⟨s[j], List.getElem?_eq_getElem h⟩

/-! ### The `mark_dirty` frame: entries only gain the dirty flag -/

/-- `s'` is `s` with the dirty flag switched on at some entries and
nothing else changed. -/
def DirtyLe (s s' : Store) : Prop :=
  s'.length = s.length ∧
  ∀ j, getObj s' j = getObj s j ∨
    ∃ o, getObj s j = some o ∧ getObj s' j = some { o with dirty := true }

theorem DirtyLe.refl_le (s : Store) : DirtyLe s s := ⟨rfl, fun _ => Or.inl rfl⟩

theorem DirtyLe.trans_le {s1 s2 s3 : Store} (h12 : DirtyLe s1 s2) (h23 : DirtyLe s2 s3) :
    DirtyLe s1 s3 := by
  refine ⟨h23.1.trans h12.1, fun j => ?_⟩
  rcases h23.2 j with h3 | ⟨o2, ho2, ho3⟩
  · rcases h12.2 j with h2 | ⟨o1, ho1, ho2⟩
    · exact Or.inl (h3.trans h2)
    · exact Or.inr ⟨o1, ho1, h3.trans ho2⟩
  · rcases h12.2 j with h2 | ⟨o1, ho1, ho2'⟩
    · exact Or.inr ⟨o2, h2 ▸ ho2, ho3⟩
    · rw [ho2'] at ho2
      cases ho2
      exact Or.inr ⟨o1, ho1, ho3⟩

theorem DirtyLe.dirtyAt_mono {s s' : Store} (h : DirtyLe s s') {j : Nat}
    (hd : dirtyAt s j) : dirtyAt s' j := by
  obtain ⟨o, ho, hod⟩ := hd
  rcases h.2 j with h2 | ⟨o1, ho1, ho2⟩
  · exact ⟨o, h2.trans ho, hod⟩
  · exact ⟨{ o1 with dirty := true }, ho2, rfl⟩

/-- Under the mark-dirty frame every entry keeps its fields other than
the flag: the same node up to dirtiness. -/
theorem DirtyLe.getObj_shape_le {s s' : Store} (h : DirtyLe s s') {j : Nat}
    {oj : Object3D} (hj : getObj s j = some oj) :
    ∃ oj', getObj s' j = some oj' ∧ oj'.children = oj.children ∧
      oj'.parent = oj.parent ∧ oj'.position = oj.position ∧
      (oj.dirty = true → oj'.dirty = true) := by
  rcases h.2 j with h2 | ⟨o1, ho1, ho2⟩
  · exact ⟨oj, h2.trans hj, rfl, rfl, rfl, fun hd => hd⟩
  · rw [ho1] at hj
    cases hj
    exact ⟨_, ho2, rfl, rfl, rfl, fun _ => rfl⟩

theorem DirtyLe.cedge_iff_le {s s' : Store} (h : DirtyLe s s') {a b : Nat} :
    Cedge s' a b ↔ Cedge s a b := by
  constructor
  · rintro ⟨o', ho', hb⟩
    rcases h.2 a with h2 | ⟨o1, ho1, ho2⟩
    · exact ⟨o', h2 ▸ ho', hb⟩
    · rw [ho2] at ho'
      cases ho'
      exact ⟨o1, ho1, hb⟩
  · rintro ⟨o, ho, hb⟩
    obtain ⟨o', ho', hch, _⟩ := h.getObj_shape_le ho
    exact ⟨o', ho', hch ▸ hb⟩

/-! ### Fuel bounds and the `mark_dirty` lemmas -/

/-- `fuel` dominates every child-chain starting at `i`: the fuel bound
under which `mark_dirty` reaches the whole subtree. -/
def HF (fuel : Nat) (s : Store) (i : Nat) : Prop :=
  ∀ l, List.Chain (Cedge s) i l → l.length < fuel

theorem HF.of_dirtyLe {fuel : Nat} {s s' : Store} {i : Nat}
    (hle : DirtyLe s s') (h : HF fuel s i) : HF fuel s' i := by
  intro l hl
  exact h l (hl.imp fun a b hab => hle.cedge_iff_le.mp hab)

theorem HF.step {fuel : Nat} {s : Store} {i c : Nat}
    (h : HF (fuel + 1) s i) (hedge : Cedge s i c) : HF fuel s c := by
  intro l hl
  have := h (c :: l) (List.Chain.cons hedge hl)
  simpa using this

theorem HF.pos {fuel : Nat} {s : Store} {i : Nat} (h : HF fuel s i) : 0 < fuel :=
  h [] List.Chain.nil

/-- The completeness obligation of `mark_dirty` relative to the starting
arena: a node that was clean and got marked has all its (live) children
marked. -/
def Bprop (s s' : Store) : Prop :=
  ∀ a oa, getObj s a = some oa → oa.dirty = false → dirtyAt s' a →
    ∀ c ∈ oa.children, c < s.length → dirtyAt s' c

theorem Bprop_self (s : Store) : Bprop s s := by
  rintro a oa hga hcl ⟨oa', hga', hd⟩ c hc hlt
  rw [hga] at hga'
  cases hga'
  rw [hcl] at hd
  exact Bool.noConfusion hd

theorem Bprop.comp {s s1 s2 : Store} (h01 : DirtyLe s s1) (b01 : Bprop s s1)
    (h12 : DirtyLe s1 s2) (b12 : Bprop s1 s2) : Bprop s s2 := by
  intro a oa hga hcl hd2 c hc hlt
  by_cases hd1 : dirtyAt s1 a
  · exact h12.dirtyAt_mono (b01 a oa hga hcl hd1 c hc hlt)
  · obtain ⟨oa', hga', hch, hpar, hpos, hdmono⟩ := h01.getObj_shape_le hga
    have hcl1 : oa'.dirty = false := by
      cases hb : oa'.dirty
      · rfl
      · exact absurd ⟨oa', hga', hb⟩ hd1
    exact b12 a oa' hga' hcl1 hd2 c (hch ▸ hc) (by rw [h01.1]; exact hlt)

/-- `mark_dirty` only switches dirty flags on. -/
theorem md_frame : ∀ (fuel : Nat) (s : Store) (i : Nat),
    DirtyLe s (Object3D.mark_dirty fuel s i) := by
  intro fuel
  induction fuel with
  | zero => intro s i; exact DirtyLe.refl_le s
  | succ fuel ih =>
    intro s i
    rw [Object3D.mark_dirty]
    split
    · exact DirtyLe.refl_le s
    · rename_i o hg
      split
      · exact DirtyLe.refl_le s
      · have h1 : DirtyLe s (setObj s i { o with dirty := true }) := by
          refine ⟨length_setObj .., fun j => ?_⟩
          by_cases hj : i = j
          · subst hj
            exact Or.inr ⟨o, hg, getObj_setObj_self _ (getObj_some_lt hg)⟩
          · exact Or.inl (getObj_setObj_ne _ hj)
        have foldl_frame : ∀ (l : List Nat) (s0 : Store),
            DirtyLe s0 (List.foldl (Object3D.mark_dirty fuel) s0 l) := by
          intro l
          induction l with
          | nil => intro s0; exact DirtyLe.refl_le s0
          | cons c cs ihl =>
            intro s0
            rw [List.foldl_cons]
            exact (ih s0 c).trans_le (ihl _)
        exact h1.trans_le (foldl_frame o.children _)

/-- The child loop of `mark_dirty` only switches dirty flags on. -/
theorem md_foldl_frame (fuel : Nat) : ∀ (l : List Nat) (s0 : Store),
    DirtyLe s0 (List.foldl (Object3D.mark_dirty fuel) s0 l) := by
  intro l
  induction l with
  | nil => intro s0; exact DirtyLe.refl_le s0
  | cons c cs ihl =>
    intro s0
    rw [List.foldl_cons]
    exact (md_frame fuel s0 c).trans_le (ihl _)

/-- `mark_dirty` marks its live target. -/
theorem md_marks {fuel : Nat} {s : Store} {i : Nat} {o : Object3D}
    (hg : getObj s i = some o) :
    dirtyAt (Object3D.mark_dirty (fuel + 1) s i) i := by
  rw [Object3D.mark_dirty, hg]
  dsimp only
  by_cases hd : o.dirty = true
  · rw [if_pos hd]
    exact ⟨o, hg, hd⟩
  · rw [if_neg hd]
    exact (md_foldl_frame fuel o.children _).dirtyAt_mono
      ⟨_, getObj_setObj_self _ (getObj_some_lt hg), rfl⟩

/-- The child loop of `mark_dirty` marks every live member of the list
(provided there is fuel to enter each call). -/
theorem md_foldl_marks {fuel : Nat} : ∀ {l : List Nat} {s0 : Store} {c : Nat},
    c ∈ l → c < s0.length → Object3D.mark_dirty fuel = Object3D.mark_dirty (fuel - 1 + 1) →
    dirtyAt (List.foldl (Object3D.mark_dirty fuel) s0 l) c := by
  intro l
  induction l with
  | nil => intro s0 c hc; exact absurd hc (List.not_mem_nil c)
  | cons d ds ihl =>
    intro s0 c hc hlt hfuel
    rw [List.foldl_cons]
    rcases List.mem_cons.mp hc with hcd | hcs
    · subst hcd
      obtain ⟨oc, hoc⟩ := getObj_lt_some hlt
      refine (md_foldl_frame fuel ds _).dirtyAt_mono ?_
      rw [hfuel]
      exact md_marks hoc
    · exact ihl hcs (by rw [(md_frame fuel s0 d).1]; exact hlt) hfuel

/-- The completeness obligation holds for `mark_dirty` whenever the fuel
dominates every chain out of the target: a clean node that ends up dirty
has all its live children dirty afterwards. -/
theorem md_B : ∀ (fuel : Nat) (s : Store) (i : Nat), HF fuel s i →
    Bprop s (Object3D.mark_dirty fuel s i) := by
  intro fuel
  induction fuel with
  | zero =>
    intro s i hHF
    exact absurd hHF.pos (lt_irrefl 0)
  | succ fuel ih =>
    intro s i hHF
    rw [Object3D.mark_dirty]
    split
    · exact Bprop_self s
    · rename_i o hg
      split
      · exact Bprop_self s
      · have hlen1 : (setObj s i { o with dirty := true }).length = s.length :=
          length_setObj ..
        have hle1 : DirtyLe s (setObj s i { o with dirty := true }) := by
          refine ⟨hlen1, fun j => ?_⟩
          by_cases hj : i = j
          · subst hj
            exact Or.inr ⟨o, hg, getObj_setObj_self _ (getObj_some_lt hg)⟩
          · exact Or.inl (getObj_setObj_ne _ hj)
        have hfold : ∀ (l : List Nat) (s0 : Store), (∀ c ∈ l, HF fuel s0 c) →
            Bprop s0 (List.foldl (Object3D.mark_dirty fuel) s0 l) := by
          intro l
          induction l with
          | nil => intro s0 _; exact Bprop_self s0
          | cons c cs ihl =>
            intro s0 hhf
            rw [List.foldl_cons]
            have le1 : DirtyLe s0 (Object3D.mark_dirty fuel s0 c) := md_frame ..
            exact Bprop.comp le1 (ih s0 c (hhf c (List.mem_cons_self c cs)))
              (md_foldl_frame ..)
              (ihl (Object3D.mark_dirty fuel s0 c)
                (fun d hd' => (hhf d (List.mem_cons_of_mem c hd')).of_dirtyLe le1))
        have hBfold : Bprop (setObj s i { o with dirty := true })
            (List.foldl (Object3D.mark_dirty fuel)
              (setObj s i { o with dirty := true }) o.children) :=
          hfold o.children _ (fun c hc => (hHF.step ⟨o, hg, hc⟩).of_dirtyLe hle1)
        intro a oa hga hcl hdres c hc hlt
        by_cases hai : a = i
        · subst hai
          rw [hg] at hga
          cases hga
          have hfpos : 0 < fuel := by
            have := hHF [c] (List.Chain.cons ⟨_, hg, hc⟩ List.Chain.nil)
            simpa using this
          refine md_foldl_marks hc (by rw [hlen1]; exact hlt) ?_
          exact congrArg Object3D.mark_dirty (show fuel = fuel - 1 + 1 by omega)
        · have hga1 : getObj (setObj s i { o with dirty := true }) a = some oa := by
            rw [getObj_setObj_ne _ (fun h => hai h.symm)]
            exact hga
          exact hBfold a oa hga1 hcl hdres c hc (by rw [hlen1]; exact hlt)

/-- Under the downward-closed dirty invariant, dirtiness covers the whole
subtree of a dirty node. -/
theorem DirtyDown.desc {s : Store} (hdd : DirtyDown s) {i j : Nat}
    (hd : dirtyAt s i) (hdesc : Desc s i j) : dirtyAt s j := by
  induction hdesc with
  | refl => exact hd
  | tail hpath hedge ihd =>
    obtain ⟨ob, hob, hcmem⟩ := hedge
    obtain ⟨ob', hob', hd'⟩ := ihd
    rw [hob] at hob'
    cases hob'
    exact hdd _ _ hob hd' _ hcmem

/-- With enough fuel, `mark_dirty` leaves the entire subtree of its target
dirty, PROVIDED the arena already satisfies the downward-closed dirty
invariant (this is exactly why the short-circuit in `mark_dirty` is
sound). -/
theorem md_complete {fuel : Nat} {s : Store} {i : Nat} {o : Object3D}
    (hdd : DirtyDown s) (hcl : ChildrenLive s)
    (hHF : HF fuel s i) (hg : getObj s i = some o) :
    ∀ j, Desc s i j → dirtyAt (Object3D.mark_dirty fuel s i) j := by
  have hle := md_frame fuel s i
  have hB := md_B fuel s i hHF
  have hdi : dirtyAt (Object3D.mark_dirty fuel s i) i := by
    rw [congrArg (fun n => Object3D.mark_dirty n s i)
      (show fuel = fuel - 1 + 1 by have := hHF.pos; omega)]
    exact md_marks hg
  intro j hdesc
  induction hdesc with
  | refl => exact hdi
  | tail hpath hedge ihd =>
    obtain ⟨ob, hob, hcmem⟩ := hedge
    by_cases hbd : ob.dirty = true
    · exact hle.dirtyAt_mono (hdd _ _ hob hbd _ hcmem)
    · exact hB _ _ hob (Bool.of_not_eq_true hbd) ihd _ hcmem (hcl _ _ hob _ hcmem)

/-- `mark_dirty` preserves the downward-closed dirty invariant. -/
theorem md_dirtydown {fuel : Nat} {s : Store} {i : Nat}
    (hdd : DirtyDown s) (hcl : ChildrenLive s) (hHF : HF fuel s i) :
    DirtyDown (Object3D.mark_dirty fuel s i) := by
  have hle := md_frame fuel s i
  have hB := md_B fuel s i hHF
  intro a oa' hga' hd' c hcmem
  rcases hle.2 a with h2 | ⟨oa, hoa, hoa'⟩
  · have hga : getObj s a = some oa' := h2.symm.trans hga'
    exact hle.dirtyAt_mono (hdd _ _ hga hd' _ hcmem)
  · rw [hoa'] at hga'
    cases hga'
    by_cases hoad : oa.dirty = true
    · exact hle.dirtyAt_mono (hdd _ _ hoa hoad _ hcmem)
    · exact hB _ _ hoa (Bool.of_not_eq_true hoad)
        ⟨{ oa with dirty := true }, hoa', rfl⟩ _ hcmem (hcl _ _ hoa _ hcmem)

/-- Every member of a child chain is the target of some edge. -/
theorem chain_mem_target {s : Store} {i : Nat} : ∀ {l : List Nat},
    List.Chain (Cedge s) i l → ∀ x ∈ l, ∃ a, Cedge s a x := by
  intro l
  induction l generalizing i with
  | nil => intro _ x hx; exact absurd hx (List.not_mem_nil x)
  | cons c cs ihl =>
    intro hl x hx
    rw [List.chain_cons] at hl
    rcases List.mem_cons.mp hx with hxc | hxs
    · subst hxc
      exact ⟨i, hl.1⟩
    · exact ihl hl.2 x hxs

/-- On a well-formed arena, the arena size dominates every child chain:
the fuel the wrapper operations pass to `mark_dirty` is always enough. -/
theorem wf_hf {s : Store} {i : Nat} {o : Object3D}
    (hcl : ChildrenLive s) (hacy : AcyclicChildren s)
    (hg : getObj s i = some o) : HF s.length s i := by
  obtain ⟨rk, hrk⟩ := hacy
  intro l hl
  haveI : IsTrans Nat (fun a b => rk b < rk a) := ⟨fun a b c h1 h2 => h2.trans h1⟩
  have hpw : List.Pairwise (fun a b => rk b < rk a) (i :: l) :=
    List.chain_iff_pairwise.mp (hl.imp fun a b hab => hrk a b hab)
  have hnd : (i :: l).Nodup :=
    hpw.imp fun hab => by
      intro heq
      subst heq
      exact lt_irrefl _ hab
  have hbound : ∀ x ∈ i :: l, x < s.length := by
    intro x hx
    rcases List.mem_cons.mp hx with hxi | hxl
    · subst hxi
      exact getObj_some_lt hg
    · obtain ⟨a, ha⟩ := chain_mem_target hl x hxl
      obtain ⟨oa, hoa, hmem⟩ := ha
      exact hcl _ _ hoa _ hmem
  have hsub : (i :: l).toFinset ⊆ Finset.range s.length := by
    intro x hx
    exact Finset.mem_range.mpr (hbound x (List.mem_toFinset.mp hx))
  have hcard : (i :: l).length ≤ s.length := by
    calc (i :: l).length = (i :: l).toFinset.card :=
          (List.toFinset_card_of_nodup hnd).symm
      _ ≤ (Finset.range s.length).card := Finset.card_le_card hsub
      _ = s.length := Finset.card_range _
  simpa using hcard

/-! ### Shape-preserving frames and invariant transport -/

/-- `s'` has the same graph shape as `s`: same size, and every entry keeps
its child list and parent back-reference. -/
def EdgeShape (s s' : Store) : Prop :=
  s'.length = s.length ∧
  ∀ j oj, getObj s j = some oj → ∃ oj', getObj s' j = some oj' ∧
    oj'.children = oj.children ∧ oj'.parent = oj.parent

/-- `s'` has the same shape AND the same dirty flags as `s`. -/
def SameShape (s s' : Store) : Prop :=
  s'.length = s.length ∧
  ∀ j oj, getObj s j = some oj → ∃ oj', getObj s' j = some oj' ∧
    oj'.children = oj.children ∧ oj'.parent = oj.parent ∧ oj'.dirty = oj.dirty

theorem SameShape.edgeShape_same {s s' : Store} (h : SameShape s s') : EdgeShape s s' :=
  ⟨h.1, fun j oj hj => by
    obtain ⟨oj', h1, h2, h3, _⟩ := h.2 j oj hj
    exact ⟨oj', h1, h2, h3⟩⟩

theorem DirtyLe.edgeShape_le {s s' : Store} (h : DirtyLe s s') : EdgeShape s s' :=
  ⟨h.1, fun j oj hj => by
    obtain ⟨oj', h1, h2, h3, _⟩ := h.getObj_shape_le hj
    exact ⟨oj', h1, h2, h3⟩⟩

theorem EdgeShape.getObj_rev {s s' : Store} (h : EdgeShape s s') {j : Nat}
    {oj' : Object3D} (hj' : getObj s' j = some oj') :
    ∃ oj, getObj s j = some oj ∧ oj'.children = oj.children ∧
      oj'.parent = oj.parent := by
  have hlt : j < s.length := by
    have := getObj_some_lt hj'
    rwa [h.1] at this
  obtain ⟨oj, hoj⟩ := getObj_lt_some hlt
  obtain ⟨oj'', h1, h2, h3⟩ := h.2 j oj hoj
  rw [hj'] at h1
  cases h1
  exact ⟨oj, hoj, h2, h3⟩

theorem EdgeShape.cedge_iff {s s' : Store} (h : EdgeShape s s') {a b : Nat} :
    Cedge s' a b ↔ Cedge s a b := by
  constructor
  · rintro ⟨o', ho', hb⟩
    obtain ⟨o, ho, hch, _⟩ := h.getObj_rev ho'
    exact ⟨o, ho, hch ▸ hb⟩
  · rintro ⟨o, ho, hb⟩
    obtain ⟨o', ho', hch, _⟩ := h.2 a o ho
    exact ⟨o', ho', hch.symm ▸ hb⟩

theorem EdgeShape.desc_iff {s s' : Store} (h : EdgeShape s s') {a b : Nat} :
    Desc s' a b ↔ Desc s a b := by
  constructor
  · intro hd
    exact Relation.ReflTransGen.mono (fun x y hxy => h.cedge_iff.mp hxy) hd
  · intro hd
    exact Relation.ReflTransGen.mono (fun x y hxy => h.cedge_iff.mpr hxy) hd

theorem EdgeShape.childrenLive {s s' : Store} (h : EdgeShape s s')
    (hcl : ChildrenLive s) : ChildrenLive s' := by
  intro a oa' ha' c hc
  obtain ⟨oa, hoa, hch, _⟩ := h.getObj_rev ha'
  rw [h.1]
  exact hcl _ _ hoa _ (hch ▸ hc)

theorem EdgeShape.parentCoherent {s s' : Store} (h : EdgeShape s s')
    (hpc : ParentCoherent s) : ParentCoherent s' := by
  intro a oa' c oc' ha' hc hc'
  obtain ⟨oa, hoa, hcha, _⟩ := h.getObj_rev ha'
  obtain ⟨oc, hoc, _, hpc'⟩ := h.getObj_rev hc'
  rw [hpc']
  exact hpc _ _ _ _ hoa (hcha ▸ hc) hoc

theorem EdgeShape.acyclic {s s' : Store} (h : EdgeShape s s')
    (hacy : AcyclicChildren s) : AcyclicChildren s' := by
  obtain ⟨rk, hrk⟩ := hacy
  exact ⟨rk, fun a b hab => hrk a b (h.cedge_iff.mp hab)⟩

theorem SameShape.dirtyAt_iff {s s' : Store} (h : SameShape s s') {j : Nat} :
    dirtyAt s' j ↔ dirtyAt s j := by
  constructor
  · rintro ⟨oj', hj', hd⟩
    have hlt : j < s.length := by
      have := getObj_some_lt hj'
      rwa [h.1] at this
    obtain ⟨oj, hoj⟩ := getObj_lt_some hlt
    obtain ⟨oj'', h1, _, _, hdi⟩ := h.2 j oj hoj
    rw [hj'] at h1
    cases h1
    exact ⟨oj, hoj, hdi ▸ hd⟩
  · rintro ⟨oj, hoj, hd⟩
    obtain ⟨oj', h1, _, _, hdi⟩ := h.2 j oj hoj
    exact ⟨oj', h1, hdi.symm ▸ hd⟩

theorem SameShape.dirtyDown {s s' : Store} (h : SameShape s s')
    (hdd : DirtyDown s) : DirtyDown s' := by
  intro a oa' ha' hd c hc
  have hlt : a < s.length := by
    have := getObj_some_lt ha'
    rwa [h.1] at this
  obtain ⟨oa, hoa⟩ := getObj_lt_some hlt
  obtain ⟨oa'', h1, hch, _, hdi⟩ := h.2 a oa hoa
  rw [ha'] at h1
  cases h1
  exact h.dirtyAt_iff.mpr (hdd _ _ hoa (hdi ▸ hd) _ (hch ▸ hc))

theorem SameShape.wfStore {s s' : Store} (h : SameShape s s')
    (hwf : WfStore s) : WfStore s' :=
  ⟨h.edgeShape_same.childrenLive hwf.1, h.edgeShape_same.parentCoherent hwf.2.1,
   h.edgeShape_same.acyclic hwf.2.2.1, h.dirtyDown hwf.2.2.2⟩

/-! ### The setters: dirty propagation and idempotence -/

/-- The common shape of the four setters: update one field of the node,
then `mark_dirty` with the arena size as fuel.  Each setter of the source
is definitionally an instance of this pattern. -/
def setField (upd : Object3D → Object3D) (s : Store) (i : Nat) : Store :=
  match getObj s i with
  | none => s
  | some o => Object3D.mark_dirty s.length (setObj s i (upd o)) i

theorem set_position_eq_setField (s : Store) (i : Nat) (pos : Vec3) :
    Object3D.set_position s i pos =
      setField (fun o => { o with position := pos }) s i := rfl

theorem set_rotation_eq_setField (s : Store) (i : Nat) (rot : Quat) :
    Object3D.set_rotation s i rot =
      setField (fun o => { o with rotation := rot }) s i := rfl

theorem set_scale_eq_setField (s : Store) (i : Nat) (scale : Vec3) :
    Object3D.set_scale s i scale =
      setField (fun o => { o with scale := scale }) s i := rfl

theorem set_geometry_eq_setField (s : Store) (i : Nat) (g : Geometry) :
    Object3D.set_geometry s i g =
      setField (fun o => { o with geometry := some g }) s i := rfl

/-- Replacing an entry by a node of the same shape and dirtiness is a
`SameShape` step. -/
theorem setObj_sameShape {s : Store} {i : Nat} {o : Object3D} (o' : Object3D)
    (hg : getObj s i = some o)
    (hch : o'.children = o.children) (hpar : o'.parent = o.parent)
    (hdi : o'.dirty = o.dirty) : SameShape s (setObj s i o') := by
  refine ⟨length_setObj .., fun j oj hj => ?_⟩
  by_cases hij : i = j
  · subst hij
    rw [hg] at hj
    cases hj
    exact ⟨o', getObj_setObj_self _ (getObj_some_lt hg), hch, hpar, hdi⟩
  · exact ⟨oj, by rw [getObj_setObj_ne _ hij]; exact hj, rfl, rfl, rfl⟩

/-- A field-only setter marks the whole subtree of a live node dirty and
preserves well-formedness. -/
theorem setField_spec (upd : Object3D → Object3D)
    (hpres : ∀ x, (upd x).children = x.children ∧ (upd x).parent = x.parent ∧
      (upd x).dirty = x.dirty)
    {s : Store} {i : Nat} {o : Object3D}
    (hwf : WfStore s) (hg : getObj s i = some o) :
    (∀ j, Desc s i j → dirtyAt (setField upd s i) j) ∧
    WfStore (setField upd s i) := by
  have hshape : SameShape s (setObj s i (upd o)) :=
    setObj_sameShape (upd o) hg (hpres o).1 (hpres o).2.1 (hpres o).2.2
  have hwf1 : WfStore (setObj s i (upd o)) := hshape.wfStore hwf
  have hg1 : getObj (setObj s i (upd o)) i = some (upd o) :=
    getObj_setObj_self _ (getObj_some_lt hg)
  have hHF : HF s.length (setObj s i (upd o)) i := by
    have := wf_hf hwf1.1 hwf1.2.2.1 hg1
    rwa [length_setObj] at this
  have hres : setField upd s i =
      Object3D.mark_dirty s.length (setObj s i (upd o)) i := by
    rw [setField, hg]
  constructor
  · intro j hdesc
    rw [hres]
    exact md_complete hwf1.2.2.2 hwf1.1 hHF hg1 j (hshape.edgeShape_same.desc_iff.mpr hdesc)
  · rw [hres]
    have hfr := (md_frame s.length (setObj s i (upd o)) i).edgeShape_le
    exact ⟨hfr.childrenLive hwf1.1, hfr.parentCoherent hwf1.2.1,
      hfr.acyclic hwf1.2.2.1, md_dirtydown hwf1.2.2.2 hwf1.1 hHF⟩

/-- A field-only setter on a missing node is a no-op; on any node it
preserves well-formedness. -/
theorem setField_wf (upd : Object3D → Object3D)
    (hpres : ∀ x, (upd x).children = x.children ∧ (upd x).parent = x.parent ∧
      (upd x).dirty = x.dirty)
    {s : Store} {i : Nat} (hwf : WfStore s) : WfStore (setField upd s i) := by
  cases hg : getObj s i with
  | none => rw [setField, hg]; exact hwf
  | some o => exact (setField_spec upd hpres hwf hg).2

/-- Writing back the value already stored changes nothing. -/
theorem setObj_self {s : Store} {i : Nat} {o : Object3D}
    (hg : getObj s i = some o) : setObj s i o = s := by
  apply List.ext_getElem?
  intro j
  by_cases hij : i = j
  · subst hij
    rw [show (setObj s i o)[i]? = some o from
      getObj_setObj_self _ (getObj_some_lt hg)]
    exact hg.symm
  · exact getObj_setObj_ne _ hij

/-- `mark_dirty` on an already dirty node is a no-op. -/
theorem mark_dirty_of_dirty {fuel : Nat} {s : Store} {i : Nat} {o : Object3D}
    (hg : getObj s i = some o) (hd : o.dirty = true) :
    Object3D.mark_dirty (fuel + 1) s i = s := by
  rw [Object3D.mark_dirty, hg]
  dsimp only
  rw [if_pos hd]

/-- Calling the same field-only setter twice is the same as calling it
once: the node is already dirty and already carries the written value, so
the second call rewrites the same value and the dirty marking
short-circuits immediately. -/
theorem setField_idem (upd : Object3D → Object3D)
    (hidem : ∀ x, upd (upd x) = upd x)
    (hcomm : ∀ x, upd { x with dirty := true } = { upd x with dirty := true })
    (s : Store) (i : Nat) :
    setField upd (setField upd s i) i = setField upd s i := by
  cases hg : getObj s i with
  | none =>
    have h0 : setField upd s i = s := by rw [setField, hg]
    rw [h0, h0]
  | some o =>
    have hlt : i < s.length := getObj_some_lt hg
    obtain ⟨f, hf⟩ : ∃ f, s.length = f + 1 := ⟨s.length - 1, by omega⟩
    have hres : setField upd s i =
        Object3D.mark_dirty s.length (setObj s i (upd o)) i := by
      rw [setField, hg]
    have hg1 : getObj (setObj s i (upd o)) i = some (upd o) :=
      getObj_setObj_self _ hlt
    have hle : DirtyLe (setObj s i (upd o)) (setField upd s i) := by
      rw [hres]
      exact md_frame ..
    have hdi : dirtyAt (setField upd s i) i := by
      rw [hres, hf]
      exact md_marks hg1
    obtain ⟨o2, ho2, ho2d⟩ := hdi
    have ho2shape : o2 = upd o ∨ o2 = { upd o with dirty := true } := by
      rcases hle.2 i with h2 | ⟨o1, ho1, ho1'⟩
      · left
        rw [h2, hg1] at ho2
        exact (Option.some_injective _ ho2).symm
      · right
        rw [hg1] at ho1
        cases ho1
        rw [ho1'] at ho2
        exact (Option.some_injective _ ho2).symm
    have hfix : upd o2 = o2 := by
      rcases ho2shape with h | h
      · rw [h, hidem]
      · rw [h, hcomm, hidem]
    have hlen : (setField upd s i).length = s.length := by
      rw [hres, (md_frame ..).1, length_setObj]
    rw [show setField upd (setField upd s i) i =
        Object3D.mark_dirty (setField upd s i).length
          (setObj (setField upd s i) i (upd o2)) i from by
      rw [setField, ho2]]
    rw [hfix, setObj_self ho2, hlen, hf]
    exact mark_dirty_of_dirty ho2 ho2d

/-! ### The `worldMatrix` frame: entries only get their caches rewritten
and their dirty flag cleared -/

/-- `s'` is `s` with some entries given fresh matrix caches and a cleared
dirty flag, and nothing else changed. -/
def WMLe (s s' : Store) : Prop :=
  s'.length = s.length ∧
  ∀ j, getObj s' j = getObj s j ∨
    ∃ o lm wm, getObj s j = some o ∧
      getObj s' j = some { o with local_matrix := lm, world_matrix := wm, dirty := false }

theorem WMLe.refl_wm (s : Store) : WMLe s s := ⟨rfl, fun _ => Or.inl rfl⟩

theorem WMLe.trans_wm {s1 s2 s3 : Store} (h12 : WMLe s1 s2) (h23 : WMLe s2 s3) :
    WMLe s1 s3 := by
  refine ⟨h23.1.trans h12.1, fun j => ?_⟩
  rcases h23.2 j with h3 | ⟨o2, lm2, wm2, ho2, ho3⟩
  · rcases h12.2 j with h2 | ⟨o1, lm1, wm1, ho1, ho2⟩
    · exact Or.inl (h3.trans h2)
    · exact Or.inr ⟨o1, lm1, wm1, ho1, h3.trans ho2⟩
  · rcases h12.2 j with h2 | ⟨o1, lm1, wm1, ho1, ho2'⟩
    · exact Or.inr ⟨o2, lm2, wm2, h2 ▸ ho2, ho3⟩
    · rw [ho2'] at ho2
      cases ho2
      exact Or.inr ⟨o1, lm2, wm2, ho1, ho3⟩

theorem WMLe.getObj_shape_wm {s s' : Store} (h : WMLe s s') {j : Nat}
    {oj : Object3D} (hj : getObj s j = some oj) :
    ∃ oj', getObj s' j = some oj' ∧ oj'.children = oj.children ∧
      oj'.parent = oj.parent ∧ (oj'.dirty = true → oj.dirty = true) := by
  rcases h.2 j with h2 | ⟨o1, lm1, wm1, ho1, ho2⟩
  · exact ⟨oj, h2.trans hj, rfl, rfl, fun hd => hd⟩
  · rw [ho1] at hj
    cases hj
    exact ⟨_, ho2, rfl, rfl, fun hd => Bool.noConfusion hd⟩

theorem WMLe.edgeShape_wm {s s' : Store} (h : WMLe s s') : EdgeShape s s' :=
  ⟨h.1, fun j oj hj => by
    obtain ⟨oj', h1, h2, h3, _⟩ := h.getObj_shape_wm hj
    exact ⟨oj', h1, h2, h3⟩⟩

/-- The `worldMatrix` frame only clears flags: a node dirty afterwards was
dirty before. -/
theorem WMLe.dirtyAt_rev {s s' : Store} (h : WMLe s s') {j : Nat}
    (hd : dirtyAt s' j) : dirtyAt s j := by
  obtain ⟨oj', hj', hjd⟩ := hd
  rcases h.2 j with h2 | ⟨o1, lm1, wm1, ho1, ho2⟩
  · exact ⟨oj', h2.symm.trans hj', hjd⟩
  · rw [ho2] at hj'
    cases hj'
    exact Bool.noConfusion hjd

/-- `worldMatrix` only rewrites caches and clears flags, and it preserves
the downward-closed dirty invariant: the only nodes it cleans are the
maximal dirty ancestor chain of its target, and their parents were
cleaned first. -/
theorem wm_presInv : ∀ {fuel : Nat} {s : Store} {i : Nat} {m : Mat4} {s' : Store},
    ParentCoherent s → DirtyDown s →
    Object3D.worldMatrix fuel s i = some (m, s') → WMLe s s' ∧ DirtyDown s' := by
  intro fuel
  induction fuel with
  | zero => intro s i m s' _ _ h; exact Option.noConfusion h
  | succ fuel ih =>
    intro s i m s' hpc hdd h
    rw [Object3D.worldMatrix] at h
    cases hg : getObj s i with
    | none =>
      simp only [hg] at h
      exact Option.noConfusion h
    | some o =>
      simp only [hg] at h
      have hi : i < s.length := getObj_some_lt hg
      by_cases hd : o.dirty = true
      · rw [if_pos hd] at h
        cases hp : o.parent with
        | some p =>
          simp only [hp] at h
          cases hpp : getObj s p with
          | some po =>
            simp only [hpp] at h
            cases hrec : Object3D.worldMatrix fuel s p with
            | none =>
              simp only [hrec] at h
              exact Option.noConfusion h
            | some r =>
              obtain ⟨pw, s1⟩ := r
              simp only [hrec] at h
              cases h
              obtain ⟨hle1, hdd1⟩ := ih hpc hdd hrec
              obtain ⟨po', hpo', hpod, _⟩ := wm_post hrec
              have hi1 : i < s1.length := by rw [hle1.1]; exact hi
              constructor
              · refine ⟨by rw [length_setObj]; exact hle1.1, fun j => ?_⟩
                by_cases hij : i = j
                · subst hij
                  refine Or.inr ⟨o, compute_local_matrix o.position o.rotation o.scale,
                    matrix_mul_4x4 pw (compute_local_matrix o.position o.rotation o.scale),
                    hg, ?_⟩
                  rw [hp]
                  exact getObj_setObj_self _ hi1
                · rw [getObj_setObj_ne _ hij]
                  exact hle1.2 j
              · intro a oa' hga' hda c hcmem
                by_cases hai : a = i
                · subst hai
                  rw [getObj_setObj_self _ hi1] at hga'
                  cases hga'
                  exact Bool.noConfusion hda
                · rw [getObj_setObj_ne _ (fun hh => hai hh.symm)] at hga'
                  have hdc1 : dirtyAt s1 c := hdd1 _ _ hga' hda _ hcmem
                  by_cases hci : c = i
                  · subst hci
                    exfalso
                    obtain ⟨oi1, hoi1, hchi, hpari, _⟩ := hle1.getObj_shape_wm hg
                    have hpar : oi1.parent = some a :=
                      (hle1.edgeShape_wm.parentCoherent hpc) _ _ _ _ hga' hcmem hoi1
                    rw [hpari, hp] at hpar
                    rw [Option.some_inj] at hpar
                    subst hpar
                    rw [hpo'] at hga'
                    cases hga'
                    rw [hpod] at hda
                    exact Bool.noConfusion hda
                  · obtain ⟨oc1, hoc1, hocd⟩ := hdc1
                    exact ⟨oc1,
                      by rw [getObj_setObj_ne _ (fun hh => hci hh.symm)]; exact hoc1,
                      hocd⟩
          | none =>
            simp only [hpp] at h
            cases h
            constructor
            · refine ⟨length_setObj .., fun j => ?_⟩
              by_cases hij : i = j
              · subst hij
                refine Or.inr ⟨o, compute_local_matrix o.position o.rotation o.scale,
                  compute_local_matrix o.position o.rotation o.scale, hg, ?_⟩
                rw [hp]
                exact getObj_setObj_self _ hi
              · rw [getObj_setObj_ne _ hij]
                exact Or.inl rfl
            · intro a oa' hga' hda c hcmem
              by_cases hai : a = i
              · subst hai
                rw [getObj_setObj_self _ hi] at hga'
                cases hga'
                exact Bool.noConfusion hda
              · rw [getObj_setObj_ne _ (fun hh => hai hh.symm)] at hga'
                have hdc : dirtyAt s c := hdd _ _ hga' hda _ hcmem
                by_cases hci : c = i
                · subst hci
                  exfalso
                  have hpar : o.parent = some a := hpc _ _ _ _ hga' hcmem hg
                  rw [hp] at hpar
                  rw [Option.some_inj] at hpar
                  subst hpar
                  rw [hga'] at hpp
                  exact Option.noConfusion hpp
                · obtain ⟨oc1, hoc1, hocd⟩ := hdc
                  exact ⟨oc1,
                    by rw [getObj_setObj_ne _ (fun hh => hci hh.symm)]; exact hoc1,
                    hocd⟩
        | none =>
          simp only [hp] at h
          cases h
          constructor
          · refine ⟨length_setObj .., fun j => ?_⟩
            by_cases hij : i = j
            · subst hij
              refine Or.inr ⟨o, compute_local_matrix o.position o.rotation o.scale,
                compute_local_matrix o.position o.rotation o.scale, hg, ?_⟩
              rw [hp]
              exact getObj_setObj_self _ hi
            · rw [getObj_setObj_ne _ hij]
              exact Or.inl rfl
          · intro a oa' hga' hda c hcmem
            by_cases hai : a = i
            · subst hai
              rw [getObj_setObj_self _ hi] at hga'
              cases hga'
              exact Bool.noConfusion hda
            · rw [getObj_setObj_ne _ (fun hh => hai hh.symm)] at hga'
              have hdc : dirtyAt s c := hdd _ _ hga' hda _ hcmem
              by_cases hci : c = i
              · subst hci
                exfalso
                have hpar : o.parent = some a := hpc _ _ _ _ hga' hcmem hg
                rw [hp] at hpar
                exact Option.noConfusion hpar
              · obtain ⟨oc1, hoc1, hocd⟩ := hdc
                exact ⟨oc1,
                  by rw [getObj_setObj_ne _ (fun hh => hci hh.symm)]; exact hoc1,
                  hocd⟩
      · rw [if_neg hd] at h
        cases h
        exact ⟨WMLe.refl_wm s, hdd⟩

theorem SameShape.refl_same (s : Store) : SameShape s s :=
  ⟨rfl, fun j oj hj => ⟨oj, hj, rfl, rfl, rfl⟩⟩

/-- `local_matrix()` only rewrites the local cache: a shape-preserving
step. -/
theorem localM_sameShape {s : Store} {i : Nat} {r : Mat4 × Store}
    (h : Object3D.localMatrix s i = some r) : SameShape s r.2 := by
  rw [Object3D.localMatrix] at h
  cases hg : getObj s i with
  | none =>
    simp only [hg] at h
    exact Option.noConfusion h
  | some o =>
    simp only [hg] at h
    by_cases hd : o.dirty = true
    · rw [if_pos hd] at h
      cases h
      exact setObj_sameShape _ hg rfl rfl rfl
    · rw [if_neg hd] at h
      cases h
      exact SameShape.refl_same s

/-- The draw traversal is a sequence of `worldMatrix` calls: it only
rewrites caches and clears flags, and preserves the downward-closed dirty
invariant. -/
theorem draw_presInv : ∀ {fuel : Nat} {cam : Camera} {s : Store} {i : Nat}
    {s' : Store} {ev : List Nat},
    ParentCoherent s → DirtyDown s →
    Object3D.draw fuel cam s i = some (s', ev) → WMLe s s' ∧ DirtyDown s' := by
  intro fuel
  induction fuel with
  | zero => intro cam s i s' ev _ _ h; exact Option.noConfusion h
  | succ fuel ih =>
    intro cam s i s' ev hpc hdd h
    rw [Object3D.draw] at h
    cases hw : Object3D.worldMatrix s.length s i with
    | none =>
      simp only [hw] at h
      exact Option.noConfusion h
    | some r1 =>
      obtain ⟨wm, s1⟩ := r1
      simp only [hw] at h
      obtain ⟨hle1, hdd1⟩ := wm_presInv hpc hdd hw
      have hpc1 := hle1.edgeShape_wm.parentCoherent hpc
      by_cases hvis : cam.intersects_sphere ![wm 3 0, wm 3 1, wm 3 2] 1
      · rw [if_pos hvis] at h
        cases hg1 : getObj s1 i with
        | none =>
          simp only [hg1] at h
          exact Option.noConfusion h
        | some o =>
          simp only [hg1] at h
          have hkids : ∀ (l : List Nat) (s0 : Store) (ev0 : List Nat)
              (s2 : Store) (ev2 : List Nat),
              ParentCoherent s0 → DirtyDown s0 →
              List.foldl
                (fun acc c =>
                  match acc with
                  | none => none
                  | some r =>
                    match Object3D.draw fuel cam r.1 c with
                    | none => none
                    | some r2 => some (r2.1, r.2 ++ r2.2))
                (some (s0, ev0)) l = some (s2, ev2) →
              WMLe s0 s2 ∧ DirtyDown s2 := by
            intro l
            induction l with
            | nil =>
              intro s0 ev0 s2 ev2 _ hdd0 hfold
              rw [List.foldl_nil] at hfold
              cases hfold
              exact ⟨WMLe.refl_wm _, hdd0⟩
            | cons c cs ihl =>
              intro s0 ev0 s2 ev2 hpc0 hdd0 hfold
              rw [List.foldl_cons] at hfold
              cases hdc : Object3D.draw fuel cam s0 c with
              | none =>
                simp only [hdc, draw_foldl_none] at hfold
                exact Option.noConfusion hfold
              | some r2 =>
                obtain ⟨s3, ev3⟩ := r2
                simp only [hdc] at hfold
                obtain ⟨hleA, hddA⟩ := ih hpc0 hdd0 hdc
                obtain ⟨hleB, hddB⟩ :=
                  ihl s3 (ev0 ++ ev3) s2 ev2 (hleA.edgeShape_wm.parentCoherent hpc0)
                    hddA hfold
                exact ⟨hleA.trans_wm hleB, hddB⟩
          obtain ⟨hleB, hddB⟩ := hkids o.children s1 [i] s' ev hpc1 hdd1 h
          exact ⟨hle1.trans_wm hleB, hddB⟩
      · rw [if_neg hvis] at h
        cases h
        exact ⟨hle1, hdd1⟩

/-- Replacing an entry by one with the same child list does not change the
child relation. -/
theorem cedge_setObj_eq {s : Store} {i : Nat} {o o' : Object3D}
    (hg : getObj s i = some o) (hch : o'.children = o.children) :
    ∀ a b, Cedge (setObj s i o') a b ↔ Cedge s a b := by
  intro a b
  constructor
  · rintro ⟨oa, hoa, hb⟩
    by_cases hai : i = a
    · subst hai
      rw [getObj_setObj_self _ (getObj_some_lt hg)] at hoa
      cases hoa
      exact ⟨o, hg, hch ▸ hb⟩
    · rw [getObj_setObj_ne _ hai] at hoa
      exact ⟨oa, hoa, hb⟩
  · rintro ⟨oa, hoa, hb⟩
    by_cases hai : i = a
    · subst hai
      rw [hg] at hoa
      cases hoa
      exact ⟨o', getObj_setObj_self _ (getObj_some_lt hg), hch.symm ▸ hb⟩
    · exact ⟨oa, by rw [getObj_setObj_ne _ hai]; exact hoa, hb⟩

/-- `add_child` preserves well-formedness, under its caller contract: the
child currently has no parent, sits in no child list, and the new parent
is not inside the child's subtree. -/
theorem add_child_wf {s : Store} {i j : Nat} {oj : Object3D}
    (hwf : WfStore s)
    (hj : getObj s j = some oj) (hjpar : oj.parent = none)
    (hnoc : ∀ a oa, getObj s a = some oa → j ∉ oa.children)
    (hnd : ¬ Desc s j i) :
    WfStore (Object3D.add_child s i j) := by
  obtain ⟨hcl, hpc, hacy, hdd⟩ := hwf
  have hjlt : j < s.length := getObj_some_lt hj
  have hij : i ≠ j := by
    intro hh
    subst hh
    exact hnd Relation.ReflTransGen.refl
  -- stage A: set the parent back-reference of j
  set oj1 : Object3D := { oj with parent := some i } with hoj1
  set s1 : Store := setObj s j oj1 with hs1
  have hlen1 : s1.length = s.length := length_setObj ..
  have hg1 : getObj s1 j = some oj1 := getObj_setObj_self _ hjlt
  have hce1 : ∀ a b, Cedge s1 a b ↔ Cedge s a b := cedge_setObj_eq hj rfl
  have hrev1 : ∀ a oa1, getObj s1 a = some oa1 →
      ∃ oa, getObj s a = some oa ∧ oa1.children = oa.children ∧
        oa1.dirty = oa.dirty ∧ (a ≠ j → oa1.parent = oa.parent) := by
    intro a oa1 hoa1
    by_cases haj : j = a
    · subst haj
      rw [hg1] at hoa1
      cases hoa1
      exact ⟨oj, hj, rfl, rfl, fun hh => absurd rfl hh⟩
    · rw [getObj_setObj_ne _ haj] at hoa1
      exact ⟨oa1, hoa1, rfl, rfl, fun _ => rfl⟩
  have hcl1 : ChildrenLive s1 := by
    intro a oa1 hoa1 c hc
    obtain ⟨oa, hoa, hch, _, _⟩ := hrev1 a oa1 hoa1
    rw [hlen1]
    exact hcl _ _ hoa _ (hch ▸ hc)
  have hpc1 : ParentCoherent s1 := by
    intro a oa1 c oc1 hoa1 hc hoc1
    obtain ⟨oa, hoa, hch, _, _⟩ := hrev1 a oa1 hoa1
    obtain ⟨oc, hoc, _, _, hpar⟩ := hrev1 c oc1 hoc1
    by_cases hcj : c = j
    · subst hcj
      exact absurd (hch ▸ hc) (hnoc _ _ hoa)
    · rw [hpar hcj]
      exact hpc _ _ _ _ hoa (hch ▸ hc) hoc
  have hacy1 : AcyclicChildren s1 := by
    obtain ⟨rk, hrk⟩ := hacy
    exact ⟨rk, fun a b hab => hrk a b ((hce1 a b).mp hab)⟩
  have hdd1 : DirtyDown s1 := by
    intro a oa1 hoa1 hda c hc
    obtain ⟨oa, hoa, hch, hdi, _⟩ := hrev1 a oa1 hoa1
    obtain ⟨oc, hoc, hocd⟩ := hdd _ _ hoa (hdi ▸ hda) _ (hch ▸ hc)
    by_cases hcj : j = c
    · subst hcj
      exact ⟨oj1, hg1, by rw [hoj1]; rw [hoc] at hj; cases hj; exact hocd⟩
    · exact ⟨oc, by rw [getObj_setObj_ne _ hcj]; exact hoc, hocd⟩
  -- stage B: mark the child subtree dirty
  set s2 : Store := Object3D.mark_dirty s1.length s1 j with hs2
  have hHF1 : HF s1.length s1 j := wf_hf hcl1 hacy1 hg1
  have hleB : DirtyLe s1 s2 := md_frame ..
  have hlen2 : s2.length = s.length := hleB.1.trans hlen1
  have hcl2 : ChildrenLive s2 := hleB.edgeShape_le.childrenLive hcl1
  have hpc2 : ParentCoherent s2 := hleB.edgeShape_le.parentCoherent hpc1
  have hacy2 : AcyclicChildren s2 := hleB.edgeShape_le.acyclic hacy1
  have hdd2 : DirtyDown s2 := md_dirtydown hdd1 hcl1 hHF1
  have hdj2 : dirtyAt s2 j := by
    obtain ⟨f, hf⟩ : ∃ f, s1.length = f + 1 := ⟨s1.length - 1, by omega⟩
    rw [hs2, hf]
    exact md_marks hg1
  have hrev2 : ∀ a oa2, getObj s2 a = some oa2 →
      ∃ oa, getObj s a = some oa ∧ oa2.children = oa.children ∧
        (a ≠ j → oa2.parent = oa.parent) ∧ (a = j → oa2.parent = some i) := by
    intro a oa2 hoa2
    have hlt : a < s1.length := by
      have := getObj_some_lt hoa2
      rwa [hleB.1] at this
    obtain ⟨oa1, hoa1⟩ := getObj_lt_some hlt
    obtain ⟨oa1', hoa1', hch', hpar', _, _⟩ := hleB.getObj_shape_le hoa1
    rw [hoa2] at hoa1'
    cases hoa1'
    obtain ⟨oa, hoa, hch, _, hpar⟩ := hrev1 a oa1 hoa1
    refine ⟨oa, hoa, hch' ▸ hch, fun haj => by rw [hpar', hpar haj],
      fun haj => ?_⟩
    subst haj
    rw [hg1] at hoa1
    cases hoa1
    rw [hpar']
  have hce2 : ∀ a b, Cedge s2 a b ↔ Cedge s a b := by
    intro a b
    rw [hleB.cedge_iff_le]
    exact hce1 a b
  have hdesc2 : ∀ a b, Desc s2 a b ↔ Desc s a b := by
    intro a b
    constructor
    · intro hd
      exact Relation.ReflTransGen.mono (fun x y hxy => (hce2 x y).mp hxy) hd
    · intro hd
      exact Relation.ReflTransGen.mono (fun x y hxy => (hce2 x y).mpr hxy) hd
  -- stage C: append j to the child list of i
  have hres : Object3D.add_child s i j =
      match getObj s2 i with
      | none => s2
      | some p => setObj s2 i { p with children := p.children ++ [j] } := by
    rw [Object3D.add_child, hj]
  rw [hres]
  cases hgi : getObj s2 i with
  | none => exact ⟨hcl2, hpc2, hacy2, hdd2⟩
  | some pi =>
    have hilt : i < s2.length := getObj_some_lt hgi
    set pi' : Object3D := { pi with children := pi.children ++ [j] } with hpi'
    have hgi' : getObj (setObj s2 i pi') i = some pi' := getObj_setObj_self _ hilt
    have hrev3 : ∀ a oa3, getObj (setObj s2 i pi') a = some oa3 →
        (a = i ∧ oa3 = pi') ∨ (a ≠ i ∧ getObj s2 a = some oa3) := by
      intro a oa3 hoa3
      by_cases hai : i = a
      · subst hai
        rw [hgi'] at hoa3
        cases hoa3
        exact Or.inl ⟨rfl, rfl⟩
      · rw [getObj_setObj_ne _ hai] at hoa3
        exact Or.inr ⟨fun hh => hai hh.symm, hoa3⟩
    have hdirty3 : ∀ x, dirtyAt (setObj s2 i pi') x ↔ dirtyAt s2 x := by
      intro x
      constructor
      · rintro ⟨ox, hox, hoxd⟩
        rcases hrev3 x ox hox with ⟨hxi, hox'⟩ | ⟨hxi, hox'⟩
        · subst hxi
          subst hox'
          exact ⟨pi, hgi, hoxd⟩
        · exact ⟨ox, hox', hoxd⟩
      · rintro ⟨ox, hox, hoxd⟩
        by_cases hxi : i = x
        · subst hxi
          rw [hgi] at hox
          cases hox
          exact ⟨pi', hgi', hoxd⟩
        · exact ⟨ox, by rw [getObj_setObj_ne _ hxi]; exact hox, hoxd⟩
    have hce3 : ∀ a b, Cedge (setObj s2 i pi') a b ↔ Cedge s2 a b ∨ (a = i ∧ b = j) := by
      intro a b
      constructor
      · rintro ⟨oa, hoa, hb⟩
        rcases hrev3 a oa hoa with ⟨hai, hoa'⟩ | ⟨hai, hoa'⟩
        · subst hai
          subst hoa'
          rcases List.mem_append.mp hb with hbo | hbj
          · exact Or.inl ⟨pi, hgi, hbo⟩
          · exact Or.inr ⟨rfl, List.mem_singleton.mp hbj⟩
        · exact Or.inl ⟨oa, hoa', hb⟩
      · rintro (⟨oa, hoa, hb⟩ | ⟨hai, hbj⟩)
        · by_cases hai : i = a
          · subst hai
            rw [hgi] at hoa
            cases hoa
            exact ⟨pi', hgi', List.mem_append.mpr (Or.inl hb)⟩
          · exact ⟨oa, by rw [getObj_setObj_ne _ hai]; exact hoa, hb⟩
        · subst hai
          subst hbj
          exact ⟨pi', hgi', List.mem_append.mpr (Or.inr (List.mem_singleton.mpr rfl))⟩
    refine ⟨?_, ?_, ?_, ?_⟩
    · -- ChildrenLive
      intro a oa3 hoa3 c hc
      rw [length_setObj, hlen2]
      rcases hrev3 a oa3 hoa3 with ⟨hai, hoa'⟩ | ⟨hai, hoa'⟩
      · subst hoa'
        rcases List.mem_append.mp hc with hco | hcj
        · have := hcl2 _ _ hgi _ hco
          rwa [hlen2] at this
        · rw [List.mem_singleton.mp hcj]
          exact hjlt
      · have := hcl2 _ _ hoa' _ hc
        rwa [hlen2] at this
    · -- ParentCoherent
      intro a oa3 c oc3 hoa3 hc hoc3
      rcases hrev3 a oa3 hoa3 with ⟨hai, hoa'⟩ | ⟨hai, hoa'⟩
      · subst hoa'
        rcases List.mem_append.mp hc with hco | hcj
        · -- an old child of i
          have hci : c ≠ i := by
            intro hh
            rw [hh] at hco
            obtain ⟨rk, hrk⟩ := hacy2
            exact absurd (hrk i i ⟨pi, hgi, hco⟩) (lt_irrefl _)
          rcases hrev3 c oc3 hoc3 with ⟨hcieq, _⟩ | ⟨_, hoc'⟩
          · exact absurd hcieq hci
          · rw [hai]
            exact hpc2 _ _ _ _ hgi hco hoc'
        · -- c = j, the new child
          rw [List.mem_singleton.mp hcj] at hoc3
          have hji : j ≠ i := fun hh => hij hh.symm
          rcases hrev3 j oc3 hoc3 with ⟨hjieq, _⟩ | ⟨_, hoc'⟩
          · exact absurd hjieq hji
          · obtain ⟨_, _, _, _, hparj⟩ := hrev2 j oc3 hoc'
            rw [hai]
            exact hparj rfl
      · -- a is not i: an old edge
        by_cases hci : c = i
        · rw [hci] at hoc3
          rcases hrev3 i oc3 hoc3 with ⟨_, hoc'⟩ | ⟨hne, _⟩
          · subst hoc'
            have hppar : pi.parent = some a := hpc2 _ _ _ _ hoa' (hci ▸ hc) hgi
            exact hppar
          · exact absurd rfl hne
        · rcases hrev3 c oc3 hoc3 with ⟨hcieq, _⟩ | ⟨_, hoc'⟩
          · exact absurd hcieq hci
          · exact hpc2 _ _ _ _ hoa' hc hoc'
    · -- AcyclicChildren
      obtain ⟨rk, hrk2⟩ := hacy2
      classical
      refine ⟨fun x => if Desc s2 j x then rk x else rk x + rk j + 1, ?_⟩
      intro a b hedge
      show (if Desc s2 j b then rk b else rk b + rk j + 1) <
        if Desc s2 j a then rk a else rk a + rk j + 1
      rcases (hce3 a b).mp hedge with he2 | ⟨hai, hbj⟩
      · have hrkab := hrk2 a b he2
        by_cases hda : Desc s2 j a
        · have hdb : Desc s2 j b := hda.tail he2
          rw [if_pos hda, if_pos hdb]
          exact hrkab
        · by_cases hdb : Desc s2 j b
          · exfalso
            rcases (Relation.ReflTransGen.cases_tail hdb) with hbj | ⟨x, hjx, hxb⟩
            · -- b = j: an edge into j existed before
              obtain ⟨oa2, hoa2, hmem⟩ := he2
              obtain ⟨oa, hoa, hch, _, _⟩ := hrev2 a oa2 hoa2
              rw [hbj] at hmem
              exact hnoc _ _ hoa (hch ▸ hmem)
            · -- b inside the subtree of j: its unique parent is inside too
              obtain ⟨ox, hox, hxmem⟩ := hxb
              obtain ⟨oa2, hoa2, hmem⟩ := he2
              have hblt : b < s2.length := hcl2 _ _ hoa2 _ hmem
              obtain ⟨ob2, hob2⟩ := getObj_lt_some hblt
              have hbpar : ob2.parent = some x := hpc2 _ _ _ _ hox hxmem hob2
              have hbpar' : ob2.parent = some a := hpc2 _ _ _ _ hoa2 hmem hob2
              rw [hbpar] at hbpar'
              rw [Option.some_inj] at hbpar'
              subst hbpar'
              exact hda hjx
          · rw [if_neg hda, if_neg hdb]
            omega
      · rw [hbj, hai]
        rw [if_pos (show Desc s2 j j from Relation.ReflTransGen.refl)]
        have hdi2 : ¬ Desc s2 j i := fun hdes => hnd ((hdesc2 j i).mp hdes)
        rw [if_neg hdi2]
        omega
    · -- DirtyDown
      intro a oa3 hoa3 hda c hc
      rcases hrev3 a oa3 hoa3 with ⟨hai, hoa'⟩ | ⟨hai, hoa'⟩
      · subst hoa'
        rcases List.mem_append.mp hc with hco | hcj
        · exact (hdirty3 c).mpr (hdd2 _ _ hgi hda _ hco)
        · rw [List.mem_singleton.mp hcj]
          exact (hdirty3 j).mpr hdj2
      · exact (hdirty3 c).mpr (hdd2 _ _ hoa' hda _ hc)

/-! ## Reachable arenas and the claims C3 and C5 -/

/-- Arena states reachable through the public API, starting from nothing
and creating nodes with `Object3D::new`.  The `addChild` constructor
carries the preconditions of tree-disciplined use of
`Object3D::add_child`: the child is a root that is in nobody's child
list, and the target node is not inside the child's subtree.  These are
exactly the calls that respect the `Rc`/`Weak` tree shape of the source
API; violating them aliases one node under two parents or closes a
child-list cycle, which the `RefCell` borrow discipline punishes at run
time.  The matrix-reading operations re-enter the store through the
result arena of a successful run. -/
inductive Reachable : Store → Prop where
  | nil : Reachable []
  | push {s : Store} : Reachable s → Reachable (s ++ [Object3D.new])
  | setPos {s : Store} (i : Nat) (v : Vec3) :
      Reachable s → Reachable (Object3D.set_position s i v)
  | setRot {s : Store} (i : Nat) (q : Quat) :
      Reachable s → Reachable (Object3D.set_rotation s i q)
  | setScale {s : Store} (i : Nat) (v : Vec3) :
      Reachable s → Reachable (Object3D.set_scale s i v)
  | setGeom {s : Store} (i : Nat) (g : Geometry) :
      Reachable s → Reachable (Object3D.set_geometry s i g)
  | addChild {s : Store} {i j : Nat} {oj : Object3D} :
      Reachable s → getObj s j = some oj → oj.parent = none →
      (∀ a oa, getObj s a = some oa → j ∉ oa.children) → ¬ Desc s j i →
      Reachable (Object3D.add_child s i j)
  | localM {s : Store} {i : Nat} {r : Mat4 × Store} :
      Reachable s → Object3D.localMatrix s i = some r → Reachable r.2
  | worldM {s : Store} {i : Nat} {r : Mat4 × Store} :
      Reachable s → Object3D.worldMatrix s.length s i = some r → Reachable r.2
  | drawR {s : Store} {cam : Camera} {fuel i : Nat} {r : Store × List Nat} :
      Reachable s → Object3D.draw fuel cam s i = some r → Reachable r.1

/-- Reading in `s ++ [Object3D.new]` either hits an old entry or the new
root pushed at the end. -/
theorem getObj_push {s : Store} {a : Nat} {oa : Object3D}
    (h : getObj (s ++ [Object3D.new]) a = some oa) :
    getObj s a = some oa ∨ (a = s.length ∧ oa = Object3D.new) := by
  by_cases ha : a < s.length
  · left
    rw [getObj, List.getElem?_append, if_pos ha] at h
    exact h
  · right
    have hlt : a < (s ++ [Object3D.new]).length := getObj_some_lt h
    rw [List.length_append, List.length_singleton] at hlt
    have hae : a = s.length := by omega
    subst hae
    rw [getObj, List.getElem?_concat_length] at h
    exact ⟨rfl, (Option.some_injective _ h).symm⟩

/-- Old entries survive a push unchanged. -/
theorem getObj_push_old {s : Store} {a : Nat} {oa : Object3D}
    (h : getObj s a = some oa) : getObj (s ++ [Object3D.new]) a = some oa := by
  rw [getObj, List.getElem?_append, if_pos (getObj_some_lt h)]
  exact h

/-- Pushing a fresh root preserves well-formedness: the new node is
live, childless, parentless and dirty. -/
theorem push_wf {s : Store} (hwf : WfStore s) : WfStore (s ++ [Object3D.new]) := by
  obtain ⟨hcl, hpc, hacy, hdd⟩ := hwf
  refine ⟨?_, ?_, ?_, ?_⟩
  · intro a oa ha c hc
    rw [List.length_append, List.length_singleton]
    rcases getObj_push ha with h | ⟨_, hnew⟩
    · have := hcl _ _ h _ hc
      omega
    · rw [hnew] at hc
      exact absurd hc (List.not_mem_nil c)
  · intro a oa c oc ha hc hoc
    rcases getObj_push ha with h | ⟨_, hnew⟩
    · have hclt := hcl _ _ h _ hc
      rcases getObj_push hoc with h2 | ⟨hceq, _⟩
      · exact hpc _ _ _ _ h hc h2
      · exfalso
        omega
    · rw [hnew] at hc
      exact absurd hc (List.not_mem_nil c)
  · obtain ⟨rk, hrk⟩ := hacy
    refine ⟨rk, ?_⟩
    rintro a b ⟨oa, hoa, hb⟩
    rcases getObj_push hoa with h | ⟨_, hnew⟩
    · exact hrk a b ⟨oa, h, hb⟩
    · rw [hnew] at hb
      exact absurd hb (List.not_mem_nil b)
  · intro a oa ha hd c hc
    rcases getObj_push ha with h | ⟨_, hnew⟩
    · obtain ⟨oc, hoc, hocd⟩ := hdd _ _ h hd _ hc
      exact ⟨oc, getObj_push_old hoc, hocd⟩
    · rw [hnew] at hc
      exact absurd hc (List.not_mem_nil c)

/-- A successful `worldMatrix` run preserves well-formedness. -/
theorem wm_wf {fuel : Nat} {s : Store} {i : Nat} {m : Mat4} {s' : Store}
    (hwf : WfStore s) (h : Object3D.worldMatrix fuel s i = some (m, s')) :
    WfStore s' := by
  obtain ⟨hcl, hpc, hacy, hdd⟩ := hwf
  obtain ⟨hle, hdd'⟩ := wm_presInv hpc hdd h
  exact ⟨hle.edgeShape_wm.childrenLive hcl, hle.edgeShape_wm.parentCoherent hpc,
    hle.edgeShape_wm.acyclic hacy, hdd'⟩

/-- A successful `draw` run preserves well-formedness. -/
theorem draw_wf {fuel : Nat} {cam : Camera} {s : Store} {i : Nat}
    {s' : Store} {ev : List Nat}
    (hwf : WfStore s) (h : Object3D.draw fuel cam s i = some (s', ev)) :
    WfStore s' := by
  obtain ⟨hcl, hpc, hacy, hdd⟩ := hwf
  obtain ⟨hle, hdd'⟩ := draw_presInv hpc hdd h
  exact ⟨hle.edgeShape_wm.childrenLive hcl, hle.edgeShape_wm.parentCoherent hpc,
    hle.edgeShape_wm.acyclic hacy, hdd'⟩

/-- Every reachable arena is well-formed: child indices live, back
references coherent, the child relation acyclic, and dirtiness downward
closed. -/
theorem reachable_wf {s : Store} (h : Reachable s) : WfStore s := by
  induction h with
  | nil =>
    refine ⟨?_, ?_, ⟨fun _ => 0, ?_⟩, ?_⟩
    · rintro a oa ha
      exact Option.noConfusion ha
    · rintro a oa c oc ha
      exact Option.noConfusion ha
    · rintro a b ⟨oa, hoa, _⟩
      exact Option.noConfusion hoa
    · rintro a oa ha
      exact Option.noConfusion ha
  | push _ ih => exact push_wf ih
  | setPos i v _ ih =>
    rw [set_position_eq_setField]
    exact setField_wf (fun o => { o with position := v }) (fun x => ⟨rfl, rfl, rfl⟩) ih
  | setRot i q _ ih =>
    rw [set_rotation_eq_setField]
    exact setField_wf (fun o => { o with rotation := q }) (fun x => ⟨rfl, rfl, rfl⟩) ih
  | setScale i v _ ih =>
    rw [set_scale_eq_setField]
    exact setField_wf (fun o => { o with scale := v }) (fun x => ⟨rfl, rfl, rfl⟩) ih
  | setGeom i g _ ih =>
    rw [set_geometry_eq_setField]
    exact setField_wf (fun o => { o with geometry := some g }) (fun x => ⟨rfl, rfl, rfl⟩) ih
  | addChild _ hj hpar hnoc hnd ih => exact add_child_wf ih hj hpar hnoc hnd
  | localM _ hl ih => exact (localM_sameShape hl).wfStore ih
  | worldM _ hw ih => exact wm_wf ih hw
  | drawR _ hd ih => exact draw_wf ih hd

/-- C3.  On any reachable arena, each of the four setters
(`set_position`, `set_rotation`, `set_scale`, `set_geometry`) called on a
live node marks that node's whole subtree dirty — including descendants
the short-circuit in `mark_dirty` skips, which were already dirty — and
calling the same setter again with the same value changes nothing: the
second call rewrites the value already stored and the dirty marking stops
at once, so the resulting arena is identical. -/
theorem C3_setter_dirty_idempotent {s : Store} {i : Nat} {o : Object3D}
    (hr : Reachable s) (hg : getObj s i = some o) :
    (∀ v : Vec3, (∀ j, Desc s i j → dirtyAt (Object3D.set_position s i v) j) ∧
      Object3D.set_position (Object3D.set_position s i v) i v =
        Object3D.set_position s i v) ∧
    (∀ q : Quat, (∀ j, Desc s i j → dirtyAt (Object3D.set_rotation s i q) j) ∧
      Object3D.set_rotation (Object3D.set_rotation s i q) i q =
        Object3D.set_rotation s i q) ∧
    (∀ v : Vec3, (∀ j, Desc s i j → dirtyAt (Object3D.set_scale s i v) j) ∧
      Object3D.set_scale (Object3D.set_scale s i v) i v =
        Object3D.set_scale s i v) ∧
    (∀ g : Geometry, (∀ j, Desc s i j → dirtyAt (Object3D.set_geometry s i g) j) ∧
      Object3D.set_geometry (Object3D.set_geometry s i g) i g =
        Object3D.set_geometry s i g) := by
  have hwf := reachable_wf hr
  refine ⟨fun v => ⟨?_, ?_⟩, fun q => ⟨?_, ?_⟩, fun v => ⟨?_, ?_⟩, fun g => ⟨?_, ?_⟩⟩
  · simp only [set_position_eq_setField]
    exact (setField_spec (fun o => { o with position := v })
      (fun x => ⟨rfl, rfl, rfl⟩) hwf hg).1
  · simp only [set_position_eq_setField]
    exact setField_idem (fun o => { o with position := v })
      (fun x => rfl) (fun x => rfl) s i
  · simp only [set_rotation_eq_setField]
    exact (setField_spec (fun o => { o with rotation := q })
      (fun x => ⟨rfl, rfl, rfl⟩) hwf hg).1
  · simp only [set_rotation_eq_setField]
    exact setField_idem (fun o => { o with rotation := q })
      (fun x => rfl) (fun x => rfl) s i
  · simp only [set_scale_eq_setField]
    exact (setField_spec (fun o => { o with scale := v })
      (fun x => ⟨rfl, rfl, rfl⟩) hwf hg).1
  · simp only [set_scale_eq_setField]
    exact setField_idem (fun o => { o with scale := v })
      (fun x => rfl) (fun x => rfl) s i
  · simp only [set_geometry_eq_setField]
    exact (setField_spec (fun o => { o with geometry := some g })
      (fun x => ⟨rfl, rfl, rfl⟩) hwf hg).1
  · simp only [set_geometry_eq_setField]
    exact setField_idem (fun o => { o with geometry := some g })
      (fun x => rfl) (fun x => rfl) s i

/-- Two fresh roots. -/
def c3Base : Store := [Object3D.new, Object3D.new]

/-- Node `1` attached under node `0`. -/
def c3Store : Store := Object3D.add_child c3Base 0 1

/-- What the root looks like after `add_child`. -/
def c3Root : Object3D := { Object3D.new with children := [1] }

/-- What the child looks like after `add_child`. -/
def c3Child : Object3D := { Object3D.new with parent := some 0 }

theorem c3Store_eq : c3Store = [c3Root, c3Child] := rfl

theorem c3Base_noc : ∀ a oa, getObj c3Base a = some oa → 1 ∉ oa.children := by
  intro a oa ha
  rcases a with _ | _ | a
  · cases ha
    exact List.not_mem_nil 1
  · cases ha
    exact List.not_mem_nil 1
  · exact Option.noConfusion ha

theorem c3Base_nd : ¬ Desc c3Base 1 0 := by
  intro h
  rcases Relation.ReflTransGen.cases_head h with h01 | ⟨b, hb, _⟩
  · exact one_ne_zero h01
  · obtain ⟨o, ho, hmem⟩ := hb
    cases ho
    exact absurd hmem (List.not_mem_nil b)

theorem c3Reachable : Reachable c3Store :=
  Reachable.addChild (Reachable.push (Reachable.push Reachable.nil)) rfl rfl
    c3Base_noc c3Base_nd

/-- C3, witness: on the concrete two-node chain, `set_position` on the
root dirties the child, and a second identical call is a no-op. -/
theorem C3_setter_dirty_idempotent_witness :
    dirtyAt (Object3D.set_position c3Store 0 ![2, 0, 0]) 1 ∧
    Object3D.set_position (Object3D.set_position c3Store 0 ![2, 0, 0]) 0 ![2, 0, 0] =
      Object3D.set_position c3Store 0 ![2, 0, 0] := by
  have h := (C3_setter_dirty_idempotent c3Reachable
    (show getObj c3Store 0 = some c3Root from rfl)).1 ![2, 0, 0]
  exact ⟨h.1 1 (Relation.ReflTransGen.single
    ⟨c3Root, rfl, List.mem_singleton.mpr rfl⟩), h.2⟩

/-- C5.  In every arena reachable through the public operations, the set
of dirty flags is downward closed: if a node is dirty, every node of its
subtree is dirty.  This is the invariant that makes the short-circuit in
`mark_dirty` sound: a dirty descendant never hides a clean one below it. -/
theorem C5_dirty_downward_closed {s : Store} {i : Nat} {o : Object3D}
    (hr : Reachable s) (hg : getObj s i = some o) (hd : o.dirty = true) :
    ∀ j, Desc s i j → dirtyAt s j := by
  intro j hdesc
  exact (reachable_wf hr).2.2.2.desc ⟨o, hg, hd⟩ hdesc

/-- C5, witness: on the concrete two-node chain the root is dirty, so the
invariant makes the attached child dirty as well. -/
theorem C5_dirty_downward_closed_witness : dirtyAt c3Store 1 :=
  C5_dirty_downward_closed c3Reachable
    (show getObj c3Store 0 = some c3Root from rfl) rfl 1
    (Relation.ReflTransGen.single ⟨c3Root, rfl, List.mem_singleton.mpr rfl⟩)
